import Mathlib

/-!
# A shallow embedding of `docker/src/quote.go`

The service proxies a stock-quote API.  This development embeds the handler
`requestQuote` (retry loop, trimming to the most recent `nDays` days, average
closing price) and the middleware `validator` and `recoverHandler` as pure
state-passing functions, and proves properties of them.

Conventions of the embedding

* A Go `map[string]interface{}` is an association list with pairwise distinct
  keys; the order of the list stands for the (unspecified) iteration order of
  the map.  A nil map is `none`.
* A value of type `interface{}` produced by `encoding/json` is a `GoValue`.
* A handler is a function from the request and the observable state
  (`World`: response writer, log, sleeps, ghost traces) to an `Outcome`:
  it returns, or it panics, or it is still running when the fuel is used up.
* `float64` arithmetic and the `strconv` conversions are a parameter
  (`GoFloat`); `binary64` further down is the IEEE 754 instance.
* Go's `int` is embedded as `Int` (no wrap-around is reachable in this code:
  the only arithmetic on `int` is `daysAvailable-Env.nDays`).
-/

namespace QuoteSvc

/-! ## Constants (quote.go, lines 18-55) -/

def ALLOWED_METHOD : String := "GET"

/-- Retry interval `time.Second * 30`, a `time.Duration` counted in nanoseconds. -/
def retryTimeout : Nat := 1000000000 * 30

def API_KEY : String := "API_KEY"

def SYMBOL : String := "SYMBOL"

def NDAYS : String := "NDAYS"

def LISTEN_ADDR : String := "LISTEN_ADDR"

def DEFAULT_LISTEN_ADDR : String := ":8443"

def DAILY_CLOSING_PRICE_LABEL : String := "4. close"

def METADATA_AVERAGE_CLOSING_PRICE_LABEL : String := "6. Average Close"

/-! ## Status codes of `net/http` used by the program -/

def StatusOK : Int := 200

def StatusBadRequest : Int := 400

def StatusMethodNotAllowed : Int := 405

def StatusInternalServerError : Int := 500

/-- The entries of `http.StatusText` for the codes this program passes to it
or writes; every other code is outside this table. -/
def StatusText (code : Int) : String :=
  if code = 200 then "OK"
  else if code = 400 then "Bad Request"
  else if code = 405 then "Method Not Allowed"
  else if code = 500 then "Internal Server Error"
  else ""

/-! ## Dynamic values and maps -/

/-- A value of static type `interface{}` as `encoding/json` decodes it:
`nil`, `bool`, `float64`, `string`, `[]interface{}` or `map[string]interface{}`.
A number is kept as the literal it was decoded from; the program never
inspects one. -/
inductive GoValue where
  | nil
  | bool (b : Bool)
  | float64 (literal : String)
  | string (s : String)
  | slice (xs : List GoValue)
  | map (entries : List (String × GoValue))

/-- The dynamic type of a value, as the runtime prints it in a failed type
assertion. -/
def GoValue.typeName : GoValue → String
  | .nil => "nil"
  | .bool _ => "bool"
  | .float64 _ => "float64"
  | .string _ => "string"
  | .slice _ => "[]interface {}"
  | .map _ => "map[string]interface {}"

/-- The entries of a non-nil `map[string]interface{}`. -/
abbrev Entries := List (String × GoValue)

/-- A `map[string]interface{}`; `none` is the nil map. -/
abbrev GoMap := Option Entries

/-- The keys of the entries, in iteration order. -/
def Entries.keys (m : Entries) : List String := m.map Prod.fst

/-- Well-formed entries: no key occurs twice. -/
def Entries.WF (m : Entries) : Prop := m.keys.Nodup

/-- Index expression `m[k]` that reads: the zero value `nil` when `k` is absent. -/
def Entries.get (m : Entries) (k : String) : GoValue := (m.lookup k).getD GoValue.nil

/-- Assignment `m[k] = v` on a non-nil map: replaces the value of an existing
key, adds the key otherwise. -/
def Entries.set : Entries → String → GoValue → Entries
  | [], k, v => [(k, v)]
  | (k', v') :: m, k, v => if k' = k then (k, v) :: m else (k', v') :: Entries.set m k v

/-- Builtin `len(m)`; 0 for the nil map. -/
def GoMap.len : GoMap → Nat
  | none => 0
  | some m => m.length

/-- The keys a `range` over the map visits; none for the nil map. -/
def GoMap.keys : GoMap → List String
  | none => []
  | some m => m.keys

/-- Index expression `m[k]` that reads; reading a nil map yields the zero value. -/
def GoMap.get : GoMap → String → GoValue
  | none, _ => GoValue.nil
  | some m, k => m.get k

/-- Well-formed map: nil, or entries with distinct keys. -/
def GoMap.WF : GoMap → Prop
  | none => True
  | some m => m.WF

instance (m : Entries) : Decidable m.WF := inferInstanceAs (Decidable (m.keys.Nodup))

instance (m : GoMap) : Decidable m.WF :=
  match m with
  | none => isTrue trivial
  | some e => inferInstanceAs (Decidable e.WF)

/-- The struct `Quote` (lines 83-86). -/
structure Quote where
  Metadata : GoMap
  Dayquotes : GoMap

/-- The struct `EnvironmentVariables` (lines 60-70). -/
structure EnvironmentVariables where
  apiKey : String
  symbol : String
  nDays : Int
  listenAddr : String

/-! ## `getEnvironmentVariables` (lines 116-141) -/

/-- The function `getEnvironmentVariables`, which sets `Env` at startup.
`getenv` is `os.Getenv` and `atoi` is `strconv.Atoi`, an error given by its
text.  The result is an error, with the message of the `log.Fatalf` that ends
the process, or the value of `Env`. -/
def getEnvironmentVariables (getenv : String → String) (atoi : String → Except String Int) :
    Except String EnvironmentVariables :=
  match atoi (getenv NDAYS) with
  | .error err => .error ("unable to parse " ++ NDAYS ++ " environment variable: " ++ err)
  | .ok nDays =>
    if nDays < 1 then
      .error (NDAYS ++ " was not set or out of range, must be at least 1 day")
    else
      let env : EnvironmentVariables :=
        { apiKey := getenv API_KEY, symbol := getenv SYMBOL, nDays := nDays,
          listenAddr := getenv LISTEN_ADDR }
      if env.apiKey = "" then .error (API_KEY ++ " was not set")
      else if env.symbol = "" then .error (SYMBOL ++ " was not set")
      else if env.listenAddr = "" then .ok { env with listenAddr := DEFAULT_LISTEN_ADDR }
      else .ok env

/-! ## `sort.Strings` -/

/-- Function `sort.Strings`: ascending order of the strings compared byte by byte.  The
keys are valid UTF-8 (they come out of `encoding/json`), for which the byte
order is the order of the code points, compared here.  The order is total, so
the sorted slice does not depend on the sorting algorithm. -/
def sortStrings (l : List String) : List String :=
  l.insertionSort (fun a b => a.toList ≤ b.toList)

/-! ## `net/http`: response writer -/

/-- What one `Write` call appends to the response body: text, or the bytes
`json.Marshal` returned for a quote. -/
inductive Chunk where
  | text (s : String)
  | json (q : Quote)

/-- The state of an `http.ResponseWriter` as `httptest.ResponseRecorder` keeps
it; header fields are not modelled. -/
structure ResponseWriter where
  wroteHeader : Bool
  code : Int
  body : List Chunk

/-- A writer on which nothing has been written; 200 is the status a client
gets when the handler never writes a header. -/
def ResponseWriter.fresh : ResponseWriter := ⟨false, 200, []⟩

/-- Method `WriteHeader`: only the first call takes effect. -/
def ResponseWriter.WriteHeader (w : ResponseWriter) (code : Int) : ResponseWriter :=
  if w.wroteHeader then w else { w with wroteHeader := true, code := code }

/-- Method `Write`: writes the header with status 200 first when no header has
been written. -/
def ResponseWriter.Write (w : ResponseWriter) (c : Chunk) : ResponseWriter :=
  let w1 := w.WriteHeader 200
  { w1 with body := w1.body ++ [c] }

/-- Function `http.Error(w, error, code)`: `WriteHeader(code)` followed by
`fmt.Fprintln(w, error)`. -/
def httpError (w : ResponseWriter) (error : String) (code : Int) : ResponseWriter :=
  (w.WriteHeader code).Write (Chunk.text (error ++ "\n"))

/-! ## Observable state and handlers -/

/-- What a run of a handler can change or leave a trace in. -/
structure World where
  /-- The response writer `w`. -/
  w : ResponseWriter
  /-- The messages handed to the standard logger. -/
  log : List String
  /-- The durations passed to `time.Sleep`, in nanoseconds. -/
  slept : List Nat
  /-- Ghost: the number of calls of `getQuotesFromServer` so far. -/
  fetches : Nat
  /-- Ghost: the arguments of the calls of `strconv.ParseFloat` so far. -/
  parsed : List String

/-- Statement `log.Printf` and `log.Println`, given the formatted message. -/
def World.logPrint (s : World) (msg : String) : World := { s with log := s.log ++ [msg] }

/-- Statement `time.Sleep(d)`. -/
def World.sleep (s : World) (d : Nat) : World := { s with slept := s.slept ++ [d] }

/-- The fields of `http.Request` the program reads. -/
structure Request where
  Method : String
  URL : String

/-- How a handler ends.  The value of `panicked` is what `recover()` returns:
`none` is the nil interface value. -/
inductive Outcome where
  | returned (s : World)
  | panicked (v : Option String) (s : World)
  | unfinished

/-- An `http.Handler`. -/
abbrev Handler := Request → World → Outcome

/-! ## Runtime panics of the Go runtime raised by `requestQuote` -/

def nilDereference : String := "runtime error: invalid memory address or nil pointer dereference"

def nilMapAssignment : String := "assignment to entry in nil map"

/-- Failed type assertion `v.(T)` on an `interface{}`. -/
def typeAssertionError (v : GoValue) (want : String) : String :=
  "interface conversion: interface {} is " ++ v.typeName ++ ", not " ++ want

/-- Failed slice expression `s[lo:]` with `lo > len(s)`. -/
def sliceBoundsError (lo : Int) (len : Nat) : String :=
  "runtime error: slice bounds out of range [" ++ toString lo ++ ":" ++ toString len ++ "]"

/-! ## `float64` and `strconv` -/

/-- The `float64` operations `requestQuote` uses. -/
structure GoFloat where
  /-- The type `float64`. -/
  F : Type
  /-- The zero value of `var dayCloseSum float64`. -/
  zero : F
  /-- Operator `+`. -/
  add : F → F → F
  /-- Operator `/`. -/
  div : F → F → F
  /-- Conversion `float64(n)` of an `int`. -/
  ofInt : Int → F
  /-- Function `strconv.ParseFloat(s, 64)`; an error is given by its text. -/
  ParseFloat : String → Except String F
  /-- Function `strconv.FormatFloat(x, 'f', 2, 64)`. -/
  FormatFloat : F → String

/-! ## `encoding/json` -/

/-- Function `json.Marshal` on a `Quote`.  Every value a `Quote` can hold here
(decoded JSON, and strings) is supported by the encoder, so it returns the
encoding, kept symbolic. -/
def jsonMarshal (q : Quote) : Except String Chunk := Except.ok (Chunk.json q)

/-! ## `getQuotesFromServer` (lines 143-192) -/

/-- What one call of `getQuotesFromServer` meets outside the program. -/
inductive Upstream where
  /-- Function `http.NewRequest` fails. -/
  | newRequestError (err : String)
  /-- Method `Client.Do` fails. -/
  | doError (err : String)
  /-- Function `ioutil.ReadAll` fails. -/
  | readError (err : String)
  /-- The body is not valid JSON. -/
  | invalidJSON
  /-- Function `json.Unmarshal` fails. -/
  | unmarshalError (err : String)
  /-- The body decodes; `quote` is nil when the body is the JSON `null`. -/
  | decoded (quote : Option Quote) (StatusCode : Int)

/-- The function `getQuotesFromServer`; `net n` is what call number `n` meets. -/
def getQuotesFromServer (net : Nat → Upstream) (s : World) : (Option Quote × Int) × World :=
  let s1 := { s with fetches := s.fetches + 1 }
  match net s.fetches with
  | .newRequestError err => ((none, StatusBadRequest), s1.logPrint ("Got error " ++ err))
  | .doError err => ((none, StatusBadRequest), s1.logPrint ("quote server reponse error " ++ err))
  | .readError err =>
      ((none, StatusInternalServerError),
        s1.logPrint ("error reading quote server response body:" ++ err))
  | .invalidJSON =>
      ((none, StatusInternalServerError), s1.logPrint "invalid JSON returned from quote server\n")
  | .unmarshalError err =>
      ((none, StatusInternalServerError),
        s1.logPrint ("error unmarshalling quote server response: " ++ err ++ "\n"))
  | .decoded quote code => ((quote, code), s1)

/-! ## `requestQuote` (lines 221-277) -/

/-- The retry loop (lines 224-232).  `none`: the loop is still running after
`fuel` iterations. -/
def retryLoop (net : Nat → Upstream) : Nat → World → Option (Option Quote × World)
  | 0, _ => none
  | fuel + 1, s =>
    match getQuotesFromServer net s with
    | ((longQuote, code), s1) =>
      if code = StatusOK then some (longQuote, s1)
      else
        retryLoop net fuel
          ((s1.logPrint ("remote service response:" ++ toString code ++ "\n")).sleep retryTimeout)

/-- The message of line 236. -/
def insufficientMsg (daysAvailable nDays : Int) : String :=
  "Requested " ++ toString daysAvailable ++ " days, only " ++ toString nDays ++
    " days of data is available"

/-- The message of line 260. -/
def malformedMsg (day dayCloseString err : String) : String :=
  "unable to parse " ++ day ++ " closing price " ++ dayCloseString ++ ": " ++ err

/-- How the loop of lines 254-265 ends: it runs to the end with the entries of
`shortQuote.Dayquotes` and `dayCloseSum`, or the function is left from inside. -/
inductive LoopExit (F : Type) where
  | done (short : Entries) (dayCloseSum : F) (s : World)
  | left (o : Outcome)

/-- The loop of lines 254-265 over the remaining `days`. -/
def closeLoop (fl : GoFloat) (long : GoMap) :
    List String → Entries → fl.F → World → LoopExit fl.F
  | [], short, sum, s => .done short sum s
  | day :: days, short, sum, s =>
    let dayQuote := long.get day
    let short1 := short.set day dayQuote
    match dayQuote with
    | .map fields =>
      match Entries.get fields DAILY_CLOSING_PRICE_LABEL with
      | .string dayCloseString =>
        let s1 := { s with parsed := s.parsed ++ [dayCloseString] }
        match fl.ParseFloat dayCloseString with
        | .error err =>
          .left (.returned
            { s1 with w := httpError s1.w (malformedMsg day dayCloseString err) StatusBadRequest })
        | .ok dayClosePrice => closeLoop fl long days short1 (fl.add sum dayClosePrice) s1
      | v => .left (.panicked (some (typeAssertionError v "string")) s)
    | v => .left (.panicked (some (typeAssertionError v "map[string]interface {}")) s)

/-- The result of the trim step: how the handler ends, and the contents at that
moment of the map `longQuote.Metadata`, which `shortQuote.Metadata` shares. -/
structure TrimExit where
  outcome : Outcome
  metadata : GoMap

/-- Lines 266-277, after the loop has run to its end. -/
def finish (fl : GoFloat) (env : EnvironmentVariables) (metadata : GoMap)
    (short : Entries) (dayCloseSum : fl.F) (s : World) : TrimExit :=
  let dayCloseAverage := fl.FormatFloat (fl.div dayCloseSum (fl.ofInt env.nDays))
  match metadata with
  | none => ⟨.panicked (some nilMapAssignment) s, none⟩
  | some md =>
    let md1 := md.set METADATA_AVERAGE_CLOSING_PRICE_LABEL (.string dayCloseAverage)
    let shortQuote : Quote := ⟨some md1, some short⟩
    match jsonMarshal shortQuote with
    | .error err =>
      ⟨.returned
        { s with w := httpError s.w ("unable to marshal quote: " ++ err) StatusInternalServerError },
        some md1⟩
    | .ok body => ⟨.returned { s with w := s.w.Write body }, some md1⟩

/-- The trim step of `requestQuote` (lines 233-277) on the document the retry
loop ended with. -/
def trimStep (fl : GoFloat) (env : EnvironmentVariables) (longQuote : Option Quote)
    (s : World) : TrimExit :=
  match longQuote with
  | none => ⟨.panicked (some nilDereference) s, none⟩
  | some lq =>
    let daysAvailable : Int := lq.Dayquotes.len
    if daysAvailable < env.nDays then
      ⟨.returned
        { s with w := httpError s.w (insufficientMsg daysAvailable env.nDays) StatusBadRequest },
        lq.Metadata⟩
    else
      let days := sortStrings lq.Dayquotes.keys
      let lo := daysAvailable - env.nDays
      if (days.length : Int) < lo then
        ⟨.panicked (some (sliceBoundsError lo days.length)) s, lq.Metadata⟩
      else
        match closeLoop fl lq.Dayquotes (days.drop lo.toNat) [] fl.zero s with
        | .left o => ⟨o, lq.Metadata⟩
        | .done short dayCloseSum s1 => finish fl env lq.Metadata short dayCloseSum s1

/-- The handler `requestQuote`: the retry loop, then the trim step. -/
def requestQuote (fl : GoFloat) (env : EnvironmentVariables) (net : Nat → Upstream)
    (fuel : Nat) : Handler := fun _ s =>
  match retryLoop net fuel s with
  | none => .unfinished
  | some (longQuote, s1) => (trimStep fl env longQuote s1).outcome

/-! ## The other handlers and the middleware -/

/-- The handler `healthCheckHandler` (lines 194-196). -/
def healthCheckHandler : Handler := fun _ s =>
  .returned { s with w := s.w.Write (Chunk.text "ok\n") }

/-- The middleware `recoverHandler` (lines 208-219): the deferred function runs
when `next` returns or panics; `recover()` stops a panic and yields its value. -/
def recoverHandler (next : Handler) : Handler := fun r s =>
  match next r s with
  | .panicked v s1 =>
    match v with
    | some err =>
      let s2 := s1.logPrint ("panic: " ++ err)
      .returned
        { s2 with w := httpError s2.w (StatusText StatusInternalServerError)
                    StatusInternalServerError }
    | none => .returned s1
  | o => o

/-- The middleware `validator` (lines 285-297). -/
def validator (next : Handler) : Handler := fun req s =>
  if req.Method = "" ∨ req.Method = ALLOWED_METHOD then
    next req s
  else
    .returned
      { s with w := httpError s.w (StatusText StatusMethodNotAllowed) StatusMethodNotAllowed }

/-! ## IEEE 754 binary64: the `float64` of the Go implementation -/

/-- A `float64`.  A finite value is `num / den` with the sign `neg` (kept for
the zeros too); the operations below only build values of binary64. -/
inductive F64 where
  | finite (neg : Bool) (num den : Nat)
  | inf (neg : Bool)
  | nan
  deriving DecidableEq, Repr

/-- The loop of `bitLen`: halves `n` until it is 0 and counts the steps in
`acc`; `fuel` bounds the number of steps. -/
def bitLenAux : Nat → Nat → Nat → Nat
  | 0, _, acc => acc
  | fuel + 1, n, acc => if n = 0 then acc else bitLenAux fuel (n / 2) (acc + 1)

/-- The number of binary digits of `n`. -/
def bitLen (n : Nat) : Nat := bitLenAux n n 0

/-- The integer `e` with `2^e ≤ p/q < 2^(e+1)`, for positive `p` and `q`. -/
def floorLog2 (p q : Nat) : Int :=
  let d : Int := (bitLen p : Int) - (bitLen q : Int)
  if 0 ≤ d then (if q * 2 ^ d.toNat ≤ p then d else d - 1)
  else (if q ≤ p * 2 ^ (-d).toNat then d else d - 1)

/-- The integer nearest to `num / den`, the even one of two nearest. -/
def roundHalfEven (num den : Nat) : Nat :=
  let n := num / den
  let r := num % den
  if den < 2 * r ∨ (2 * r = den ∧ n % 2 = 1) then n + 1 else n

/-- Rounding of the exact value `p / q` (`q` positive) with the sign `neg` to
binary64, to nearest and ties to even: 53 significant bits, least exponent
`-1074`, infinity from `2^1024` on. -/
def round64 (neg : Bool) (p q : Nat) : F64 :=
  if p = 0 then .finite neg 0 1
  else
    let ex : Int := max (floorLog2 p q - 52) (-1074)
    if 0 ≤ ex then
      let n := roundHalfEven p (q * 2 ^ ex.toNat)
      if 2 ^ 1024 ≤ n * 2 ^ ex.toNat then .inf neg else .finite neg (n * 2 ^ ex.toNat) 1
    else
      .finite neg (roundHalfEven (p * 2 ^ (-ex).toNat) q) (2 ^ (-ex).toNat)

/-- Operator `+` on `float64`. -/
def F64.add : F64 → F64 → F64
  | .nan, _ => .nan
  | _, .nan => .nan
  | .inf a, .inf b => if a = b then .inf a else .nan
  | .inf a, .finite _ _ _ => .inf a
  | .finite _ _ _, .inf b => .inf b
  | .finite s1 a b, .finite s2 c d =>
    let x : Int := (if s1 then -((a * d : Nat) : Int) else ((a * d : Nat) : Int)) +
      (if s2 then -((c * b : Nat) : Int) else ((c * b : Nat) : Int))
    if x = 0 then .finite (s1 && s2) 0 1 else round64 (decide (x < 0)) x.natAbs (b * d)

/-- Operator `/` on `float64`. -/
def F64.div : F64 → F64 → F64
  | .nan, _ => .nan
  | _, .nan => .nan
  | .inf _, .inf _ => .nan
  | .inf a, .finite s _ _ => .inf (xor a s)
  | .finite s _ _, .inf b => .finite (xor s b) 0 1
  | .finite s1 a b, .finite s2 c d =>
    if c = 0 then (if a = 0 then .nan else .inf (xor s1 s2))
    else round64 (xor s1 s2) (a * d) (b * c)

/-- Conversion `float64(n)`. -/
def F64.ofInt (n : Int) : F64 := round64 (decide (n < 0)) n.natAbs 1

/-- Whether the value is one of the two zeros. -/
def F64.isZero : F64 → Bool
  | .finite _ num _ => decide (num = 0)
  | _ => false

/-- Function `strconv.FormatFloat(x, 'f', 2, 64)`: the exact value rounded to
two decimals, ties to even. -/
def F64.format2 : F64 → String
  | .nan => "NaN"
  | .inf false => "+Inf"
  | .inf true => "-Inf"
  | .finite neg a b =>
    let n := roundHalfEven (100 * a) b
    (if neg then "-" else "") ++ toString (n / 100) ++ "." ++
      String.mk [Nat.digitChar (n / 10 % 10), Nat.digitChar (n % 10)]

/-! ### `strconv.ParseFloat` -/

/-- The helper `lower` of `strconv`: `c | ('x' - 'X')`. -/
def lower (c : Char) : Char := Char.ofNat (c.toNat ||| 0x20)

/-- The helper `commonPrefixLenIgnoreCase` of `strconv`; `pre` is lower case. -/
def commonPrefixLenIgnoreCase : List Char → List Char → Nat
  | c :: s, p :: pre =>
    let c1 := if 'A' ≤ c ∧ c ≤ 'Z' then Char.ofNat (c.toNat + 32) else c
    if c1 = p then commonPrefixLenIgnoreCase s pre + 1 else 0
  | _, _ => 0

/-- The infinity case of `special`, on the text after the sign. -/
def specialInf (neg : Bool) (nsign : Nat) (s : List Char) : Option (F64 × Nat) :=
  let n := commonPrefixLenIgnoreCase s "infinity".toList
  let n1 := if 3 < n ∧ n < 8 then 3 else n
  if n1 = 3 ∨ n1 = 8 then some (.inf neg, nsign + n1) else none

/-- The helper `special` of `strconv`: the spellings of infinity and NaN, with
the number of bytes read. -/
def special (s : List Char) : Option (F64 × Nat) :=
  match s with
  | [] => none
  | c :: rest =>
    if c = '+' ∨ c = '-' then specialInf (decide (c = '-')) 1 rest
    else if c = 'i' ∨ c = 'I' then specialInf false 0 s
    else if c = 'n' ∨ c = 'N' then
      (if commonPrefixLenIgnoreCase s "nan".toList = 3 then some (.nan, 3) else none)
    else none

/-- The state of the mantissa loop of `readFloat`.  The mantissa is kept with
all its digits. -/
structure Scan where
  mantissa : Nat
  nd : Nat
  dp : Int
  sawdot : Bool
  sawdigits : Bool
  underscores : Bool

/-- The mantissa loop of `readFloat`; returns the text from where it stops. -/
def scanMantissa (hex : Bool) : List Char → Scan → Scan × List Char
  | [], st => (st, [])
  | c :: cs, st =>
    if c = '_' then scanMantissa hex cs { st with underscores := true }
    else if c = '.' then
      if st.sawdot then (st, c :: cs)
      else scanMantissa hex cs { st with sawdot := true, dp := st.nd }
    else if '0' ≤ c ∧ c ≤ '9' then
      if c = '0' ∧ st.nd = 0 then
        scanMantissa hex cs { st with sawdigits := true, dp := st.dp - 1 }
      else
        scanMantissa hex cs
          { st with sawdigits := true, nd := st.nd + 1,
                    mantissa := st.mantissa * (if hex then 16 else 10) + (c.toNat - '0'.toNat) }
    else if hex ∧ 'a' ≤ lower c ∧ lower c ≤ 'f' then
      scanMantissa hex cs
        { st with sawdigits := true, nd := st.nd + 1,
                  mantissa := st.mantissa * 16 + ((lower c).toNat - 'a'.toNat + 10) }
    else (st, c :: cs)

/-- The exponent loop of `readFloat`: the digits are added while the value is
below 10000. -/
def scanExponent : List Char → Nat → Bool → Nat × Bool × List Char
  | [], e, u => (e, u, [])
  | c :: cs, e, u =>
    if c = '_' then scanExponent cs e true
    else if '0' ≤ c ∧ c ≤ '9' then
      scanExponent cs (if e < 10000 then e * 10 + (c.toNat - '0'.toNat) else e) u
    else (e, u, c :: cs)

/-- The loop of `underscoreOK`; `saw` is the class of the last character. -/
def underscoreLoop (hex : Bool) : List Char → Char → Bool
  | [], saw => saw ≠ '_'
  | c :: cs, saw =>
    if ('0' ≤ c ∧ c ≤ '9') ∨ (hex ∧ 'a' ≤ lower c ∧ lower c ≤ 'f') then underscoreLoop hex cs '0'
    else if c = '_' then (if saw ≠ '0' then false else underscoreLoop hex cs '_')
    else if saw = '_' then false
    else underscoreLoop hex cs '!'

/-- The helper `underscoreOK` of `strconv`: an underscore only between digits,
or between a base prefix and a digit. -/
def underscoreOK (s : List Char) : Bool :=
  let s1 := match s with
    | c :: t => if c = '-' ∨ c = '+' then t else s
    | [] => s
  match s1 with
  | c0 :: c1 :: t =>
    if c0 = '0' ∧ (lower c1 = 'b' ∨ lower c1 = 'o' ∨ lower c1 = 'x') then
      underscoreLoop (decide (lower c1 = 'x')) t '0'
    else underscoreLoop false s1 '^'
  | _ => underscoreLoop false s1 '^'

/-- What `readFloat` reads: the sign, the base, the mantissa and the exponent
of the base (10, or 2 for a hexadecimal mantissa), and the unread text. -/
structure ReadFloat where
  neg : Bool
  hex : Bool
  mantissa : Nat
  exp : Int
  rest : List Char
  deriving DecidableEq

/-- The helper `readFloat` of `strconv`; `none` when it reports `!ok`. -/
def readFloat (s : List Char) : Option ReadFloat :=
  let (neg, s1) : Bool × List Char := match s with
    | c :: t => if c = '+' then (false, t) else if c = '-' then (true, t) else (false, s)
    | [] => (false, s)
  let (hex, s2) : Bool × List Char := match s1 with
    | c0 :: c1 :: c2 :: t => if c0 = '0' ∧ lower c1 = 'x' then (true, c2 :: t) else (false, s1)
    | _ => (false, s1)
  match scanMantissa hex s2 ⟨0, 0, 0, false, false, false⟩ with
  | (st, rest) =>
    if !st.sawdigits then none
    else
      let dp0 : Int := if st.sawdot then st.dp else st.nd
      let dp : Int := if hex then dp0 * 4 else dp0
      let ndMant : Int := if hex then (st.nd : Int) * 4 else st.nd
      let expChar : Char := if hex then 'p' else 'e'
      let fin (dp1 : Int) (underscores : Bool) (rest1 : List Char) : Option ReadFloat :=
        if underscores ∧ !underscoreOK (s.take (s.length - rest1.length)) then none
        else some ⟨neg, hex, st.mantissa, if st.mantissa = 0 then 0 else dp1 - ndMant, rest1⟩
      match rest with
      | c :: r1 =>
        if lower c = expChar then
          match r1 with
          | [] => none
          | c1 :: r2 =>
            let (esign, r3) : Int × List Char :=
              if c1 = '+' then (1, r2) else if c1 = '-' then (-1, r2) else (1, r1)
            match r3 with
            | [] => none
            | d :: _ =>
              if '0' ≤ d ∧ d ≤ '9' then
                match scanExponent r3 0 st.underscores with
                | (e, u, r4) => fin (dp + (e : Int) * esign) u r4
              else none
        else if hex then none
        else fin dp st.underscores rest
      | [] => if hex then none else fin dp st.underscores []

/-- Function `strconv.Quote` on ASCII text; a character outside ASCII is kept,
as `Quote` keeps the printable ones. -/
def quoteChar (c : Char) : List Char :=
  if c = '"' then ['\\', '"']
  else if c = '\\' then ['\\', '\\']
  else if c = '\x07' then ['\\', 'a']
  else if c = '\x08' then ['\\', 'b']
  else if c = '\x0c' then ['\\', 'f']
  else if c = '\n' then ['\\', 'n']
  else if c = '\r' then ['\\', 'r']
  else if c = '\t' then ['\\', 't']
  else if c = '\x0b' then ['\\', 'v']
  else if c.toNat < 0x20 ∨ c.toNat = 0x7f then
    ['\\', 'x', Nat.digitChar (c.toNat / 16), Nat.digitChar (c.toNat % 16)]
  else [c]

/-- Function `strconv.Quote`. -/
def strconvQuote (s : String) : String := String.mk (['"'] ++ s.toList.flatMap quoteChar ++ ['"'])

/-- The text of the `*strconv.NumError` of `ParseFloat`. -/
def numError (s : String) (err : String) : String :=
  "strconv.ParseFloat: parsing " ++ strconvQuote s ++ ": " ++ err

/-- Function `strconv.ParseFloat(s, 64)`: the spellings of infinity and NaN, or
a decimal or hexadecimal number that is read to its end, rounded to the nearest
`float64`; a value that rounds to infinity is out of range. -/
def ParseFloat64 (str : String) : Except String F64 :=
  let s := str.toList
  match special s with
  | some (f, n) => if n = s.length then .ok f else .error (numError str "invalid syntax")
  | none =>
    match readFloat s with
    | none => .error (numError str "invalid syntax")
    | some r =>
      if r.rest ≠ [] then .error (numError str "invalid syntax")
      else
        let base : Nat := if r.hex then 2 else 10
        let f := if 0 ≤ r.exp then round64 r.neg (r.mantissa * base ^ r.exp.toNat) 1
          else round64 r.neg r.mantissa (base ^ (-r.exp).toNat)
        match f with
        | .inf _ => .error (numError str "value out of range")
        | _ => .ok f

/-- The `float64` of the Go implementation. -/
def binary64 : GoFloat where
  F := F64
  zero := .finite false 0 1
  add := F64.add
  div := F64.div
  ofInt := F64.ofInt
  ParseFloat := ParseFloat64
  FormatFloat := F64.format2

/-! ## The document of the tests (quote_test.go, lines 26-120) -/

/-- A per-day record of the test document. -/
def dayRecord (o h l c a v : String) : GoValue :=
  .map [("1. open", .string o), ("2. high", .string h), ("3. low", .string l),
    ("4. close", .string c), ("5. adjusted close", .string a), ("6. volume", .string v),
    ("7. dividend amount", .string "0.0000"), ("8. split coefficient", .string "1.0")]

/-- The object under "Meta Data" of the test document. -/
def testMetadata : Entries :=
  [("1. Information", .string "Daily Time Series with Splits and Dividend Events"),
    ("2. Symbol", .string "MSFT"), ("3. Last Refreshed", .string "2023-02-02"),
    ("4. Output Size", .string "Compact"), ("5. Time Zone", .string "US/Eastern")]

/-- The constant `METADATA` of the tests, decoded. -/
def METADATA : Quote where
  Metadata := some testMetadata
  Dayquotes := some
    [("2023-01-24", dayRecord "242.5" "243.95" "240.44" "242.04" "242.04" "40234444"),
      ("2023-01-25", dayRecord "234.48" "243.3" "230.9" "240.61" "240.61" "66526641"),
      ("2023-01-26", dayRecord "243.65" "248.31" "242.0" "248.0" "248.0" "33454491"),
      ("2023-01-27", dayRecord "258.82" "264.69" "257.25" "264.6" "264.6" "3913618"),
      ("2023-01-30", dayRecord "244.51" "245.6" "242.2" "242.71" "242.71" "25867365"),
      ("2023-01-31", dayRecord "243.45" "247.95" "242.945" "247.81" "247.81" "26541072"),
      ("2023-02-01", dayRecord "248.0" "255.18" "245.47" "252.75" "252.75" "31259912"),
      ("2023-02-02", dayRecord "258.82" "264.69" "257.25" "264.6" "264.6" "39136189")]

/-- The environment of `TestRequestQuote`: `Env.nDays = 5`. -/
def testEnv (nDays : Int) : EnvironmentVariables := ⟨"TestApiKey", "TestSYM", nDays, ":8443"⟩

/-! ## Helpers for stating the properties -/

/-- The state in which a handler returned, if it did. -/
def Outcome.world : Outcome → Option World
  | .returned s => some s
  | _ => none

/-- The string a value holds, if it is a string. -/
def GoValue.str : GoValue → Option String
  | .string s => some s
  | _ => none

/-- The quote a chunk encodes, if it is the encoding of one. -/
def Chunk.quote : Chunk → Option Quote
  | .json q => some q
  | .text _ => none

/-- The status of the response of a handler that returned. -/
def Outcome.status (o : Outcome) : Option Int := o.world.map (fun s => s.w.code)

/-- The quote document a handler that returned wrote last. -/
def Outcome.document (o : Outcome) : Option Quote :=
  o.world.bind (fun s => s.w.body.getLast?.bind Chunk.quote)

/-- The value under "6. Average Close" in the metadata of the written document. -/
def Outcome.averageClose (o : Outcome) : Option String :=
  o.document.bind (fun q => (q.Metadata.get METADATA_AVERAGE_CLOSING_PRICE_LABEL).str)

/-- The date keys of the written document, in the order of the entries. -/
def Outcome.days (o : Outcome) : Option (List String) :=
  o.document.map (fun q => q.Dayquotes.keys)

/-- The text under "4. close" of a per-day record that is an object with a
string there. -/
def closeString (v : GoValue) : Option String :=
  match v with
  | .map fields => (Entries.get fields DAILY_CLOSING_PRICE_LABEL).str
  | _ => none

/-- Whether `strconv.ParseFloat` accepts the text. -/
def parses (fl : GoFloat) (c : String) : Bool :=
  match fl.ParseFloat c with
  | .ok _ => true
  | .error _ => false

/-- Whether the record is an object with a string under "4. close". -/
def hasClose (v : GoValue) : Bool := (closeString v).isSome

/-- Whether the record is an object with a string under "4. close" that
`strconv.ParseFloat` accepts. -/
def closeParses (fl : GoFloat) (v : GoValue) : Bool :=
  match closeString v with
  | some c => parses fl c
  | none => false

/-- The days the trim step selects (lines 241-247): the sorted keys without
the first `daysAvailable - nDays`. -/
def selectedDays (lq : Quote) (nDays : Int) : List String :=
  (sortStrings lq.Dayquotes.keys).drop ((lq.Dayquotes.len : Int) - nDays).toNat

/-- The texts under "4. close" of the records of the days, in their order. -/
def closeStrings (long : GoMap) (days : List String) : List String :=
  days.filterMap (fun d => closeString (long.get d))

/-- The value of `dayCloseSum` after the closes `cs` have been parsed and added
to `sum`, one after the other. -/
def sumCloses (fl : GoFloat) (cs : List String) (sum : fl.F) : fl.F :=
  cs.foldl (fun acc c =>
    match fl.ParseFloat c with
    | .ok p => fl.add acc p
    | .error _ => acc) sum

/-- The value of `dayCloseAverage` (line 266) for the closes `cs`. -/
def averageOf (fl : GoFloat) (cs : List String) (nDays : Int) : String :=
  fl.FormatFloat (fl.div (sumCloses fl cs fl.zero) (fl.ofInt nDays))

/-- The entries of `shortQuote.Dayquotes` for the days: each day with its record
in `long`. -/
def restrictTo (long : GoMap) (days : List String) : Entries :=
  days.map (fun d => (d, long.get d))

/-- The handler returned after the insufficient-data failure (lines 235-238) on
the writer `w0`: it called `http.Error` with the message of line 236 and 400. -/
def Outcome.isInsufficientData (o : Outcome) (w0 : ResponseWriter) : Prop :=
  ∃ s1 a n, o = .returned s1 ∧ s1.w = httpError w0 (insufficientMsg a n) StatusBadRequest

/-- The handler returned after the malformed-price failure (lines 259-262) on
the writer `w0`: it called `http.Error` with the message of line 260 and 400. -/
def Outcome.isMalformedPrice (o : Outcome) (w0 : ResponseWriter) : Prop :=
  ∃ s1 d c e, o = .returned s1 ∧ s1.w = httpError w0 (malformedMsg d c e) StatusBadRequest

/-- The value of `shortQuote` at line 269 when the loop has run to its end and
`longQuote.Metadata` is the non-nil map `md`. -/
def shortQuoteOf (fl : GoFloat) (lq : Quote) (md : Entries) (nDays : Int) : Quote :=
  ⟨some (md.set METADATA_AVERAGE_CLOSING_PRICE_LABEL
      (.string (averageOf fl (closeStrings lq.Dayquotes (selectedDays lq nDays)) nDays))),
    some (restrictTo lq.Dayquotes (selectedDays lq nDays))⟩

/-- The text a chunk holds, if it is text. -/
def Chunk.str : Chunk → Option String
  | .text t => some t
  | .json _ => none

/-- The texts in the body of the response of a handler that returned. -/
def Outcome.texts (o : Outcome) : Option (List String) :=
  o.world.map (fun s => s.w.body.filterMap Chunk.str)

/-- An upstream that answers every call with the document `q` and status 200. -/
def okNet (q : Quote) : Nat → Upstream := fun _ => .decoded (some q) 200

/-- The request `GET /quote`. -/
def getQuote : Request := ⟨"GET", "/quote"⟩

/-- An upstream that fails twice, with a transport error and with status 503,
and then answers with the document `q` and status 200. -/
def flakyNet (q : Quote) : Nat → Upstream := fun n =>
  if n = 0 then .doError "timeout" else if n = 1 then .decoded (some q) 503
  else .decoded (some q) 200

/-- A document of two days; the close of the later day is "abc". -/
def badCloseQuote : Quote where
  Metadata := some testMetadata
  Dayquotes := some
    [("2023-02-01", dayRecord "248.0" "255.18" "245.47" "252.75" "252.75" "31259912"),
      ("2023-02-02", dayRecord "258.82" "264.69" "257.25" "abc" "264.6" "39136189")]

/-- A document of two days with the closes "10000000000000000" and "1". -/
def bigCloseQuote : Quote where
  Metadata := some testMetadata
  Dayquotes := some
    [("2023-02-01", dayRecord "1" "1" "1" "10000000000000000" "1" "1"),
      ("2023-02-02", dayRecord "1" "1" "1" "1" "1" "1")]

/-- The rational number a decimal text denotes: an optional sign, digits with
an optional point, an optional exponent of ten. -/
def decimalValue (t : String) : Option ℚ :=
  match readFloat t.toList with
  | some r =>
    if r.hex ∨ r.rest ≠ [] then none
    else some ((if r.neg then -1 else 1) * (r.mantissa : ℚ) * (10 : ℚ) ^ r.exp)
  | none => none

/-- The arithmetic mean the specification speaks of: the exact sum of the
numbers the closes denote, divided by the day count. -/
def exactMean (closes : List ℚ) (n : Int) : ℚ := closes.sum / (n : ℚ)

/-- The text denotes a number that equals `x` to two decimal places: it is less
than one hundredth away from `x` (so the text may be `x` rounded to the
nearest hundredth, or up, or down). -/
def agreesToTwoDecimals (t : String) (x : ℚ) : Prop :=
  ∃ v, decimalValue t = some v ∧ |v - x| < 1 / 100

/-- The handler of `TestRecoverHandler`: it panics with "Test panic". -/
def testPanicHandler : Handler := fun _ s => .panicked (some "Test panic") s

/-- The lines logged by a handler that returned. -/
def Outcome.logged (o : Outcome) : Option (List String) := o.world.map (fun s => s.log)

/-- The result `(quote, code)` of the call of `getQuotesFromServer` that meets `u`. -/
def Upstream.result : Upstream → Option Quote × Int
  | .newRequestError _ => (none, StatusBadRequest)
  | .doError _ => (none, StatusBadRequest)
  | .readError _ => (none, StatusInternalServerError)
  | .invalidJSON => (none, StatusInternalServerError)
  | .unmarshalError _ => (none, StatusInternalServerError)
  | .decoded quote code => (quote, code)

/-- What the call of `getQuotesFromServer` that meets `u` logs itself. -/
def Upstream.logged : Upstream → List String
  | .newRequestError err => ["Got error " ++ err]
  | .doError err => ["quote server reponse error " ++ err]
  | .readError err => ["error reading quote server response body:" ++ err]
  | .invalidJSON => ["invalid JSON returned from quote server\n"]
  | .unmarshalError err => ["error unmarshalling quote server response: " ++ err ++ "\n"]
  | .decoded _ _ => []

/-- What a failed attempt leaves in the log: the lines of `getQuotesFromServer`,
then the line of the retry loop with the status. -/
def attemptLog (u : Upstream) : List String :=
  u.logged ++ ["remote service response:" ++ toString u.result.2 ++ "\n"]

/-- A handler that writes part of a body and then panics. -/
def writeThenPanic : Handler := fun _ s =>
  .panicked (some "boom") { s with w := s.w.Write (Chunk.text "partial") }

/-- The state in which the server calls the outermost handler. -/
def World.init : World := ⟨ResponseWriter.fresh, [], [], 0, []⟩

/-! ## Theorems -/

theorem getQuotesFromServer_eq (net : Nat → Upstream) (s : World) :
    getQuotesFromServer net s =
      ((net s.fetches).result,
        { s with fetches := s.fetches + 1, log := s.log ++ (net s.fetches).logged }) := by
  unfold getQuotesFromServer
  cases h : net s.fetches <;> simp [Upstream.result, Upstream.logged, World.logPrint]

theorem logged_of_ok (u : Upstream) (h : u.result.2 = StatusOK) : u.logged = [] := by
  cases u <;> simp_all [Upstream.result, Upstream.logged, StatusOK, StatusBadRequest,
    StatusInternalServerError]

theorem retryLoop_after_failures (net : Nat → Upstream) :
    ∀ (k : Nat) (s : World) (fuel : Nat),
      (∀ i, i < k → (net (s.fetches + i)).result.2 ≠ StatusOK) →
      (net (s.fetches + k)).result.2 = StatusOK → k < fuel →
      retryLoop net fuel s =
        some ((net (s.fetches + k)).result.1,
          { s with
            fetches := s.fetches + k + 1
            log := s.log ++ (List.range k).flatMap (fun i => attemptLog (net (s.fetches + i)))
            slept := s.slept ++ List.replicate k retryTimeout }) := by
  intro k
  induction k with
  | zero =>
    intro s fuel _ hok hfuel
    obtain ⟨f, rfl⟩ : ∃ f, fuel = f + 1 := ⟨fuel - 1, by omega⟩
    have hok0 : (net s.fetches).result.2 = StatusOK := by simpa using hok
    simp [retryLoop, getQuotesFromServer_eq, hok0, logged_of_ok _ hok0]
  | succ k ih =>
    intro s fuel hfail hok hfuel
    obtain ⟨f, rfl⟩ : ∃ f, fuel = f + 1 := ⟨fuel - 1, by omega⟩
    have h0 : (net s.fetches).result.2 ≠ StatusOK := by simpa using hfail 0 (by omega)
    simp only [retryLoop, getQuotesFromServer_eq, h0, if_false]
    rw [ih _ f]
    · simp only [World.sleep, World.logPrint, attemptLog, List.range_succ_eq_map,
        List.flatMap_cons, List.flatMap_map, Function.comp, List.replicate_succ]
      simp [Nat.add_assoc, Nat.add_comm 1, List.append_assoc]
    · intro i hi
      have := hfail (i + 1) (by omega)
      simpa [World.sleep, World.logPrint, Nat.add_assoc, Nat.add_comm 1] using this
    · simpa [World.sleep, World.logPrint, Nat.add_assoc, Nat.add_comm 1] using hok
    · omega

/-! ### The middleware -/

theorem WriteHeader_fresh (w : ResponseWriter) (code : Int) (h : w.wroteHeader = false) :
    w.WriteHeader code = ⟨true, code, w.body⟩ := by
  simp [ResponseWriter.WriteHeader, h]

theorem httpError_fresh (w : ResponseWriter) (msg : String) (code : Int)
    (h : w.wroteHeader = false) :
    httpError w msg code = ⟨true, code, w.body ++ [Chunk.text (msg ++ "\n")]⟩ := by
  simp [httpError, ResponseWriter.Write, ResponseWriter.WriteHeader, h]

theorem httpError_written (w : ResponseWriter) (msg : String) (code : Int)
    (h : w.wroteHeader = true) :
    httpError w msg code = ⟨true, w.code, w.body ++ [Chunk.text (msg ++ "\n")]⟩ := by
  cases w
  simp_all [httpError, ResponseWriter.Write, ResponseWriter.WriteHeader]

/-! ### Maps -/

theorem Entries.set_of_not_mem (m : Entries) (k : String) (v : GoValue) (h : k ∉ m.keys) :
    m.set k v = m ++ [(k, v)] := by
  induction m with
  | nil => rfl
  | cons e m ih =>
    obtain ⟨k1, v1⟩ := e
    simp only [Entries.keys, List.map_cons, List.mem_cons, not_or] at h
    have hne : ¬ k1 = k := fun h1 => h.1 h1.symm
    simp [Entries.set, hne, ih h.2]

theorem Entries.keys_append (m n : Entries) : Entries.keys (m ++ n) = m.keys ++ n.keys := by
  simp [Entries.keys]

theorem foldl_set_eq (long : GoMap) :
    ∀ (days : List String) (short : Entries), days.Nodup → (∀ d, d ∈ days → d ∉ short.keys) →
      days.foldl (fun m d => Entries.set m d (long.get d)) short =
        short ++ restrictTo long days := by
  intro days
  induction days with
  | nil => intro short _ _; simp [restrictTo]
  | cons d days ih =>
    intro short hnd hdisj
    rw [List.nodup_cons] at hnd
    rw [List.foldl_cons, Entries.set_of_not_mem _ _ _ (hdisj d (List.mem_cons_self _ _)), ih]
    · simp [restrictTo]
    · exact hnd.2
    · intro x hx
      rw [Entries.keys_append]
      simp only [Entries.keys, List.map_cons, List.map_nil, List.mem_append, List.mem_singleton,
        not_or]
      refine ⟨hdisj x (List.mem_cons_of_mem _ hx), ?_⟩
      rintro rfl
      exact hnd.1 hx

theorem restrictTo_keys (long : GoMap) (days : List String) :
    (restrictTo long days).keys = days := by
  induction days with
  | nil => rfl
  | cons d days ih =>
    simp only [restrictTo, Entries.keys, List.map_cons, List.cons.injEq, true_and] at ih ⊢
    exact ih

theorem restrictTo_get (long : GoMap) (days : List String) (d : String) (h : d ∈ days) :
    (restrictTo long days).get d = long.get d := by
  induction days with
  | nil => simp at h
  | cons x days ih =>
    by_cases hx : d = x
    · subst hx
      simp [restrictTo, Entries.get, List.lookup]
    · have hmem : d ∈ days := by
        rcases List.mem_cons.1 h with h1 | h1
        · exact absurd h1 hx
        · exact h1
      have hbeq : (d == x) = false := by simpa using hx
      have := ih hmem
      simp only [restrictTo, Entries.get, List.map_cons, List.lookup, hbeq] at this ⊢
      exact this

/-! ### Sorting and selecting -/

theorem sortStrings_perm (l : List String) : (sortStrings l).Perm l :=
  List.perm_insertionSort _ l

theorem sortStrings_sorted (l : List String) :
    (sortStrings l).Sorted (fun a b : String => a ≤ b) := by
  haveI : IsTotal String (fun a b => a.toList ≤ b.toList) := ⟨fun a b => le_total _ _⟩
  haveI : IsTrans String (fun a b => a.toList ≤ b.toList) := ⟨fun a b c => le_trans⟩
  have h := List.sorted_insertionSort (fun a b : String => a.toList ≤ b.toList) l
  exact List.Pairwise.imp (fun {a b} hab => String.le_iff_toList_le.2 hab) h

/-- The sorted keys do not depend on the order in which the map is iterated. -/
theorem sortStrings_of_perm (l1 l2 : List String) (h : l1.Perm l2) :
    sortStrings l1 = sortStrings l2 := by
  haveI : IsTotal String (fun a b => a.toList ≤ b.toList) := ⟨fun a b => le_total _ _⟩
  haveI : IsTrans String (fun a b => a.toList ≤ b.toList) := ⟨fun a b c => le_trans⟩
  haveI : IsAntisymm String (fun a b => a.toList ≤ b.toList) :=
    ⟨fun a b h1 h2 => String.toList_inj.1 (le_antisymm h1 h2)⟩
  exact List.eq_of_perm_of_sorted
    ((sortStrings_perm l1).trans (h.trans (sortStrings_perm l2).symm))
    (List.sorted_insertionSort (fun a b : String => a.toList ≤ b.toList) l1)
    (List.sorted_insertionSort (fun a b : String => a.toList ≤ b.toList) l2)

theorem selectedDays_sorted (lq : Quote) (n : Int) :
    (selectedDays lq n).Sorted (fun a b : String => a ≤ b) :=
  List.Pairwise.sublist (List.drop_sublist _ _) (sortStrings_sorted _)

theorem selectedDays_subset (lq : Quote) (n : Int) (d : String) (h : d ∈ selectedDays lq n) :
    d ∈ lq.Dayquotes.keys :=
  (sortStrings_perm _).subset (List.mem_of_mem_drop h)

theorem keys_length (m : GoMap) : m.keys.length = m.len := by
  cases m <;> simp [GoMap.keys, GoMap.len, Entries.keys]

theorem selectedDays_length (lq : Quote) (n : Int) (h0 : 0 ≤ n) (h1 : n ≤ lq.Dayquotes.len) :
    ((selectedDays lq n).length : Int) = n := by
  simp only [selectedDays, List.length_drop, (sortStrings_perm _).length_eq, keys_length]
  omega

theorem selectedDays_nodup (lq : Quote) (n : Int) (h : lq.Dayquotes.WF) :
    (selectedDays lq n).Nodup := by
  have hk : lq.Dayquotes.keys.Nodup := by
    cases hq : lq.Dayquotes with
    | none => simp [GoMap.keys]
    | some m => rw [hq] at h; exact h
  exact List.Nodup.sublist (List.drop_sublist _ _) ((sortStrings_perm _).nodup_iff.2 hk)

theorem selectedDays_greatest (lq : Quote) (n : Int) (k k1 : String)
    (hk : k ∈ selectedDays lq n) (hk1 : k1 ∈ lq.Dayquotes.keys) (hnot : k1 ∉ selectedDays lq n) :
    k1 ≤ k := by
  have hs := sortStrings_sorted lq.Dayquotes.keys
  rw [← List.take_append_drop ((lq.Dayquotes.len : Int) - n).toNat (sortStrings lq.Dayquotes.keys)]
    at hs
  have hmem : k1 ∈ sortStrings lq.Dayquotes.keys := (sortStrings_perm _).mem_iff.2 hk1
  rw [← List.take_append_drop ((lq.Dayquotes.len : Int) - n).toNat (sortStrings lq.Dayquotes.keys),
    List.mem_append] at hmem
  rcases hmem with h | h
  · exact (List.pairwise_append.1 hs).2.2 k1 h k hk
  · exact absurd h hnot

/-! ### The loop over the selected days -/

theorem closeLoop_cons_of_close (fl : GoFloat) (long : GoMap) (day : String) (days : List String)
    (short : Entries) (sum : fl.F) (s : World) (c : String)
    (hc : closeString (long.get day) = some c) :
    closeLoop fl long (day :: days) short sum s =
      match fl.ParseFloat c with
      | .error err =>
        .left (.returned
          { s with parsed := s.parsed ++ [c],
                   w := httpError s.w (malformedMsg day c err) StatusBadRequest })
      | .ok p =>
        closeLoop fl long days (short.set day (long.get day)) (fl.add sum p)
          { s with parsed := s.parsed ++ [c] } := by
  conv_lhs => unfold closeLoop
  cases hv : long.get day with
  | map fields =>
    rw [hv] at hc
    simp only [closeString] at hc
    cases hf : Entries.get fields DAILY_CLOSING_PRICE_LABEL with
    | string c1 =>
      rw [hf] at hc
      simp only [GoValue.str, Option.some.injEq] at hc
      subst hc
      simp only [hf]
    | nil => rw [hf] at hc; simp [GoValue.str] at hc
    | bool b => rw [hf] at hc; simp [GoValue.str] at hc
    | float64 x => rw [hf] at hc; simp [GoValue.str] at hc
    | slice xs => rw [hf] at hc; simp [GoValue.str] at hc
    | map m => rw [hf] at hc; simp [GoValue.str] at hc
  | nil => rw [hv] at hc; simp [closeString] at hc
  | bool b => rw [hv] at hc; simp [closeString] at hc
  | float64 x => rw [hv] at hc; simp [closeString] at hc
  | string x => rw [hv] at hc; simp [closeString] at hc
  | slice xs => rw [hv] at hc; simp [closeString] at hc

theorem closeParses_iff (fl : GoFloat) (v : GoValue) :
    closeParses fl v = true ↔ ∃ c p, closeString v = some c ∧ fl.ParseFloat c = .ok p := by
  unfold closeParses parses
  cases hc : closeString v with
  | none => simp
  | some c =>
    cases hp : fl.ParseFloat c with
    | error e => simp [hp]
    | ok p => simp [hp]

theorem closeLoop_all_parse (fl : GoFloat) (long : GoMap) :
    ∀ (days : List String) (short : Entries) (sum : fl.F) (s : World),
      (∀ d, d ∈ days → closeParses fl (long.get d) = true) →
      closeLoop fl long days short sum s =
        .done (days.foldl (fun m d => Entries.set m d (long.get d)) short)
          (sumCloses fl (closeStrings long days) sum)
          { s with parsed := s.parsed ++ closeStrings long days } := by
  intro days
  induction days with
  | nil => intro short sum s _; simp [closeLoop, closeStrings, sumCloses]
  | cons d days ih =>
    intro short sum s h
    obtain ⟨c, p, hc, hp⟩ := (closeParses_iff fl _).1 (h d (List.mem_cons_self _ _))
    rw [closeLoop_cons_of_close fl long d days short sum s c hc]
    simp only [hp]
    rw [ih _ _ _ (fun x hx => h x (List.mem_cons_of_mem _ hx))]
    simp [closeStrings, sumCloses, hc, hp, List.filterMap_cons]

theorem closeLoop_first_failure (fl : GoFloat) (long : GoMap) :
    ∀ (pre : List String) (d : String) (post : List String) (short : Entries) (sum : fl.F)
      (s : World) (c err : String),
      (∀ x, x ∈ pre → closeParses fl (long.get x) = true) →
      closeString (long.get d) = some c → fl.ParseFloat c = .error err →
      closeLoop fl long (pre ++ d :: post) short sum s =
        .left (.returned
          { s with parsed := s.parsed ++ closeStrings long pre ++ [c],
                   w := httpError s.w (malformedMsg d c err) StatusBadRequest }) := by
  intro pre
  induction pre with
  | nil =>
    intro d post short sum s c err _ hc he
    rw [List.nil_append, closeLoop_cons_of_close fl long d post short sum s c hc]
    simp [he, closeStrings]
  | cons x pre ih =>
    intro d post short sum s c err h hc he
    obtain ⟨c1, p, hc1, hp⟩ := (closeParses_iff fl _).1 (h x (List.mem_cons_self _ _))
    rw [List.cons_append, closeLoop_cons_of_close fl long x _ short sum s c1 hc1]
    simp only [hp]
    rw [ih d post _ _ _ c err (fun y hy => h y (List.mem_cons_of_mem _ hy)) hc he]
    simp [closeStrings, hc1, List.filterMap_cons]

theorem closeLoop_cons_of_no_close (fl : GoFloat) (long : GoMap) (day : String)
    (days : List String) (short : Entries) (sum : fl.F) (s : World)
    (hc : closeString (long.get day) = none) :
    ∃ v, closeLoop fl long (day :: days) short sum s = .left (.panicked (some v) s) := by
  unfold closeLoop
  cases hv : long.get day with
  | map fields =>
    rw [hv] at hc
    simp only [closeString] at hc
    cases hf : Entries.get fields DAILY_CLOSING_PRICE_LABEL with
    | string c1 => rw [hf] at hc; simp [GoValue.str] at hc
    | nil => simp only [hf]; exact ⟨_, rfl⟩
    | bool b => simp only [hf]; exact ⟨_, rfl⟩
    | float64 x => simp only [hf]; exact ⟨_, rfl⟩
    | slice xs => simp only [hf]; exact ⟨_, rfl⟩
    | map m => simp only [hf]; exact ⟨_, rfl⟩
  | nil => exact ⟨_, rfl⟩
  | bool b => exact ⟨_, rfl⟩
  | float64 x => exact ⟨_, rfl⟩
  | string x => exact ⟨_, rfl⟩
  | slice xs => exact ⟨_, rfl⟩

theorem closeLoop_cases (fl : GoFloat) (long : GoMap) :
    ∀ (days : List String) (short : Entries) (sum : fl.F) (s : World),
      (∃ short1 sum1 s1, closeLoop fl long days short sum s = .done short1 sum1 s1 ∧
          s1.w = s.w) ∨
        (∃ v s1, closeLoop fl long days short sum s = .left (.panicked v s1)) ∨
        (∃ s1 d c e, closeLoop fl long days short sum s = .left (.returned s1) ∧
          s1.w = httpError s.w (malformedMsg d c e) StatusBadRequest) := by
  intro days
  induction days with
  | nil => intro short sum s; exact Or.inl ⟨short, sum, s, rfl, rfl⟩
  | cons d days ih =>
    intro short sum s
    cases hc : closeString (long.get d) with
    | none =>
      obtain ⟨v, hv⟩ := closeLoop_cons_of_no_close fl long d days short sum s hc
      exact Or.inr (Or.inl ⟨_, _, hv⟩)
    | some c =>
      rw [closeLoop_cons_of_close fl long d days short sum s c hc]
      cases hp : fl.ParseFloat c with
      | error e => exact Or.inr (Or.inr ⟨_, d, c, e, rfl, rfl⟩)
      | ok p =>
        simp only []
        rcases ih (short.set d (long.get d)) (fl.add sum p)
          { s with parsed := s.parsed ++ [c] } with h | h | h
        · exact Or.inl h
        · exact Or.inr (Or.inl h)
        · exact Or.inr (Or.inr h)

/-! ### Telling the responses apart -/

theorem Write_body (w : ResponseWriter) (c : Chunk) : (w.Write c).body = w.body ++ [c] := by
  unfold ResponseWriter.Write ResponseWriter.WriteHeader
  split <;> rfl

theorem httpError_body (w : ResponseWriter) (msg : String) (code : Int) :
    (httpError w msg code).body = w.body ++ [Chunk.text (msg ++ "\n")] := by
  unfold httpError
  rw [Write_body]
  unfold ResponseWriter.WriteHeader
  split <;> rfl

theorem malformedMsg_head (d c e : String) :
    (malformedMsg d c e ++ "\n").data.head? = some 'u' := by
  have h : ("unable to parse " : String).data = 'u' :: ("nable to parse " : String).data := rfl
  simp [malformedMsg, String.data_append, h]

theorem insufficientMsg_head (a n : Int) :
    (insufficientMsg a n ++ "\n").data.head? = some 'R' := by
  have h : ("Requested " : String).data = 'R' :: ("equested " : String).data := rfl
  simp [insufficientMsg, String.data_append, h]

theorem malformed_ne_insufficient (w : ResponseWriter) (d c e : String) (a n : Int) (x y : Int) :
    httpError w (malformedMsg d c e) x ≠ httpError w (insufficientMsg a n) y := by
  intro h
  have hb := congrArg ResponseWriter.body h
  rw [httpError_body, httpError_body] at hb
  have h1 := List.append_cancel_left hb
  simp only [List.cons.injEq, Chunk.text.injEq, and_true] at h1
  have h2 := congrArg (fun t : String => t.data.head?) h1
  simp only [malformedMsg_head, insufficientMsg_head] at h2
  exact absurd h2 (by decide)

theorem Write_json_ne_httpError (w : ResponseWriter) (q : Quote) (msg : String) (x : Int) :
    w.Write (Chunk.json q) ≠ httpError w msg x := by
  intro h
  have hb := congrArg ResponseWriter.body h
  rw [httpError_body, Write_body] at hb
  have h1 := List.append_cancel_left hb
  simp at h1

/-! ### The trim step -/

theorem requestQuote_of_loop (fl : GoFloat) (env : EnvironmentVariables) (net : Nat → Upstream)
    (fuel : Nat) (r : Request) (s s1 : World) (q : Option Quote)
    (h : retryLoop net fuel s = some (q, s1)) :
    requestQuote fl env net fuel r s = (trimStep fl env q s1).outcome := by
  simp [requestQuote, h]

theorem trimStep_insufficient (fl : GoFloat) (env : EnvironmentVariables) (lq : Quote) (s : World)
    (h : (lq.Dayquotes.len : Int) < env.nDays) :
    trimStep fl env (some lq) s =
      ⟨.returned
        { s with w := httpError s.w (insufficientMsg lq.Dayquotes.len env.nDays) StatusBadRequest },
        lq.Metadata⟩ := by
  simp [trimStep, h]

theorem trimStep_enough (fl : GoFloat) (env : EnvironmentVariables) (lq : Quote) (s : World)
    (h0 : 0 ≤ env.nDays) (h1 : env.nDays ≤ lq.Dayquotes.len) :
    trimStep fl env (some lq) s =
      match closeLoop fl lq.Dayquotes (selectedDays lq env.nDays) [] fl.zero s with
      | .left o => ⟨o, lq.Metadata⟩
      | .done short dayCloseSum s1 => finish fl env lq.Metadata short dayCloseSum s1 := by
  have hlen : (sortStrings lq.Dayquotes.keys).length = lq.Dayquotes.len := by
    rw [(sortStrings_perm _).length_eq, keys_length]
  have h2 : ¬ ((lq.Dayquotes.len : Int) < env.nDays) := not_lt.2 h1
  have h3 : ¬ ((lq.Dayquotes.len : Int) < (lq.Dayquotes.len : Int) - env.nDays) := by omega
  simp only [trimStep, h2, if_false, hlen, h3, selectedDays]

theorem finish_some (fl : GoFloat) (env : EnvironmentVariables) (md short : Entries)
    (sum : fl.F) (s : World) :
    finish fl env (some md) short sum s =
      ⟨.returned
        { s with w := s.w.Write (Chunk.json
            ⟨some (md.set METADATA_AVERAGE_CLOSING_PRICE_LABEL
              (.string (fl.FormatFloat (fl.div sum (fl.ofInt env.nDays))))), some short⟩) },
        some (md.set METADATA_AVERAGE_CLOSING_PRICE_LABEL
          (.string (fl.FormatFloat (fl.div sum (fl.ofInt env.nDays)))))⟩ := by
  simp [finish, jsonMarshal]

theorem trimStep_success (fl : GoFloat) (env : EnvironmentVariables) (lq : Quote) (md : Entries)
    (s : World) (h0 : 0 ≤ env.nDays) (h1 : env.nDays ≤ lq.Dayquotes.len)
    (hwf : lq.Dayquotes.WF) (hmd : lq.Metadata = some md)
    (hparse : ∀ d, d ∈ selectedDays lq env.nDays → closeParses fl (lq.Dayquotes.get d) = true) :
    trimStep fl env (some lq) s =
      ⟨.returned
        { s with parsed := s.parsed ++ closeStrings lq.Dayquotes (selectedDays lq env.nDays),
                 w := s.w.Write (Chunk.json (shortQuoteOf fl lq md env.nDays)) },
        (shortQuoteOf fl lq md env.nDays).Metadata⟩ := by
  rw [trimStep_enough fl env lq s h0 h1, closeLoop_all_parse fl _ _ _ _ _ hparse]
  simp only [hmd, finish_some]
  rw [foldl_set_eq _ _ _ (selectedDays_nodup lq env.nDays hwf) (by simp [Entries.keys])]
  simp [shortQuoteOf, averageOf]

theorem trimStep_malformed (fl : GoFloat) (env : EnvironmentVariables) (lq : Quote) (s : World)
    (h0 : 0 ≤ env.nDays) (h1 : env.nDays ≤ lq.Dayquotes.len)
    (pre : List String) (d : String) (post : List String) (c err : String)
    (hsel : selectedDays lq env.nDays = pre ++ d :: post)
    (hpre : ∀ x, x ∈ pre → closeParses fl (lq.Dayquotes.get x) = true)
    (hc : closeString (lq.Dayquotes.get d) = some c) (he : fl.ParseFloat c = .error err) :
    trimStep fl env (some lq) s =
      ⟨.returned
        { s with parsed := s.parsed ++ closeStrings lq.Dayquotes pre ++ [c],
                 w := httpError s.w (malformedMsg d c err) StatusBadRequest },
        lq.Metadata⟩ := by
  rw [trimStep_enough fl env lq s h0 h1, hsel,
    closeLoop_first_failure fl _ pre d post _ _ _ c err hpre hc he]

/-- With enough days the trim step ends in one of three ways: it panics; it
returns after the malformed-price failure; it returns after writing the
encoding of a quote. -/
theorem trimStep_enough_cases (fl : GoFloat) (env : EnvironmentVariables) (lq : Quote)
    (s : World) (h0 : 0 ≤ env.nDays) (h1 : env.nDays ≤ lq.Dayquotes.len) :
    (∃ v s1, (trimStep fl env (some lq) s).outcome = .panicked v s1) ∨
      (∃ s1 d c e, (trimStep fl env (some lq) s).outcome = .returned s1 ∧
        s1.w = httpError s.w (malformedMsg d c e) StatusBadRequest) ∨
      (∃ s1 q, (trimStep fl env (some lq) s).outcome = .returned s1 ∧
        s1.w = s.w.Write (Chunk.json q)) := by
  rw [trimStep_enough fl env lq s h0 h1]
  rcases closeLoop_cases fl lq.Dayquotes (selectedDays lq env.nDays) [] fl.zero s with
    ⟨short1, sum1, s1, h, hw⟩ | ⟨v, s1, h⟩ | ⟨s1, d, c, e, h, hw⟩
  · rw [h]
    cases hmd : lq.Metadata with
    | none => exact Or.inl ⟨some nilMapAssignment, s1, by simp [finish]⟩
    | some md =>
      simp only [finish_some]
      exact Or.inr (Or.inr ⟨_, _, rfl, by show s1.w.Write _ = _; rw [hw]⟩)
  · rw [h]; exact Or.inl ⟨v, s1, rfl⟩
  · rw [h]; exact Or.inr (Or.inl ⟨s1, d, c, e, rfl, hw⟩)

theorem document_httpError (s : World) (msg : String) (code : Int) :
    (Outcome.returned { s with w := httpError s.w msg code }).document = none := by
  simp [Outcome.document, Outcome.world, httpError_body, Chunk.quote]

theorem document_of_httpError (s1 : World) (w : ResponseWriter) (msg : String) (code : Int)
    (h : s1.w = httpError w msg code) : (Outcome.returned s1).document = none := by
  simp [Outcome.document, Outcome.world, h, httpError_body, Chunk.quote]

theorem document_Write_json (s : World) (q : Quote) :
    (Outcome.returned { s with w := s.w.Write (Chunk.json q) }).document = some q := by
  simp [Outcome.document, Outcome.world, Write_body, Chunk.quote]

/-! ### More on maps -/

theorem Entries.get_set_self (m : Entries) (k : String) (v : GoValue) :
    (m.set k v).get k = v := by
  induction m with
  | nil => simp [Entries.set, Entries.get, List.lookup]
  | cons e m ih =>
    obtain ⟨k1, v1⟩ := e
    by_cases h : k1 = k
    · simp [Entries.set, h, Entries.get, List.lookup]
    · have hb : (k == k1) = false := by simpa using fun h1 : k = k1 => h h1.symm
      simp only [Entries.get] at ih
      simp [Entries.set, h, Entries.get, List.lookup, hb, ih]

theorem Entries.get_set_ne (m : Entries) (k k1 : String) (v : GoValue) (h : k1 ≠ k) :
    (m.set k v).get k1 = m.get k1 := by
  induction m with
  | nil =>
    have hb : (k1 == k) = false := by simpa using h
    simp [Entries.set, Entries.get, List.lookup, hb]
  | cons e m ih =>
    obtain ⟨k2, v2⟩ := e
    simp only [Entries.get] at ih
    by_cases h2 : k2 = k
    · subst h2
      have hb : (k1 == k2) = false := by simpa using h
      simp [Entries.set, Entries.get, List.lookup, hb]
    · by_cases h3 : k1 = k2
      · subst h3
        simp [Entries.set, h2, Entries.get, List.lookup]
      · have hb : (k1 == k2) = false := by simpa using h3
        simp [Entries.set, h2, Entries.get, List.lookup, hb, ih]

theorem Entries.keys_set_of_mem (m : Entries) (k : String) (v : GoValue) (h : k ∈ m.keys) :
    (m.set k v).keys = m.keys := by
  induction m with
  | nil => simp [Entries.keys] at h
  | cons e m ih =>
    obtain ⟨k1, v1⟩ := e
    by_cases h1 : k1 = k
    · simp [Entries.set, h1, Entries.keys]
    · have hm : k ∈ Entries.keys m := by
        simp only [Entries.keys, List.map_cons, List.mem_cons] at h
        rcases h with h | h
        · exact absurd h.symm h1
        · exact h
      have := ih hm
      simp only [Entries.keys] at this
      simp [Entries.set, h1, Entries.keys, this]

theorem Entries.keys_set_of_not_mem (m : Entries) (k : String) (v : GoValue) (h : k ∉ m.keys) :
    (m.set k v).keys = m.keys ++ [k] := by
  rw [Entries.set_of_not_mem m k v h, Entries.keys_append]
  rfl

theorem Entries.mem_keys_set (m : Entries) (k k1 : String) (v : GoValue) :
    k1 ∈ (m.set k v).keys ↔ k1 = k ∨ k1 ∈ m.keys := by
  by_cases h : k ∈ m.keys
  · rw [Entries.keys_set_of_mem m k v h]
    constructor
    · exact Or.inr
    · rintro (rfl | h1)
      · exact h
      · exact h1
  · rw [Entries.keys_set_of_not_mem m k v h]
    simp [or_comm]

theorem Entries.set_set (m : Entries) (k : String) (v : GoValue) :
    (m.set k v).set k v = m.set k v := by
  induction m with
  | nil => simp [Entries.set]
  | cons e m ih =>
    obtain ⟨k1, v1⟩ := e
    by_cases h : k1 = k
    · simp [Entries.set, h]
    · simp [Entries.set, h, ih]

/-! ### The first day whose close does not parse -/

theorem exists_first_failure (P : String → Bool) :
    ∀ l : List String, (∃ d, d ∈ l ∧ P d = false) →
      ∃ pre d post, l = pre ++ d :: post ∧ (∀ x, x ∈ pre → P x = true) ∧ P d = false := by
  intro l
  induction l with
  | nil => rintro ⟨d, hd, _⟩; simp at hd
  | cons a l ih =>
    rintro ⟨d, hd, hP⟩
    cases ha : P a with
    | false => exact ⟨[], a, l, rfl, by simp, ha⟩
    | true =>
      have hdl : d ∈ l := by
        rcases List.mem_cons.1 hd with h | h
        · subst h; rw [ha] at hP; cases hP
        · exact h
      obtain ⟨pre, d1, post, hl, hpre, hd1⟩ := ih ⟨d, hdl, hP⟩
      refine ⟨a :: pre, d1, post, by rw [hl]; rfl, ?_, hd1⟩
      intro x hx
      rcases List.mem_cons.1 hx with h | h
      · subst h; exact ha
      · exact hpre x h

theorem closeLoop_first_panic (fl : GoFloat) (long : GoMap) :
    ∀ (pre : List String) (d : String) (post : List String) (short : Entries) (sum : fl.F)
      (s : World),
      (∀ x, x ∈ pre → closeParses fl (long.get x) = true) →
      closeString (long.get d) = none →
      ∃ v s1, closeLoop fl long (pre ++ d :: post) short sum s = .left (.panicked v s1) := by
  intro pre
  induction pre with
  | nil =>
    intro d post short sum s _ hc
    obtain ⟨v, hv⟩ := closeLoop_cons_of_no_close fl long d post short sum s hc
    exact ⟨_, _, hv⟩
  | cons x pre ih =>
    intro d post short sum s h hc
    obtain ⟨c1, p, hc1, hp⟩ := (closeParses_iff fl _).1 (h x (List.mem_cons_self _ _))
    rw [List.cons_append, closeLoop_cons_of_close fl long x _ short sum s c1 hc1]
    simp only [hp]
    exact ih d post _ _ _ (fun y hy => h y (List.mem_cons_of_mem _ hy)) hc

/-! ### When the trim step writes a document -/

theorem document_panicked (v : Option String) (s : World) :
    (Outcome.panicked v s).document = none := rfl

theorem trimStep_negative (fl : GoFloat) (env : EnvironmentVariables) (lq : Quote) (s : World)
    (h : env.nDays < 0) :
    ∃ v, (trimStep fl env (some lq) s).outcome = .panicked v s := by
  have hlen : (sortStrings lq.Dayquotes.keys).length = lq.Dayquotes.len := by
    rw [(sortStrings_perm _).length_eq, keys_length]
  have h2 : ¬ ((lq.Dayquotes.len : Int) < env.nDays) := by omega
  have h3 : (lq.Dayquotes.len : Int) < (lq.Dayquotes.len : Int) - env.nDays := by omega
  refine ⟨some (sliceBoundsError ((lq.Dayquotes.len : Int) - env.nDays) lq.Dayquotes.len), ?_⟩
  simp only [trimStep, h2, if_false, hlen, h3, if_true]

theorem closeParses_false (fl : GoFloat) (v : GoValue) (c : String)
    (hc : closeString v = some c) (h : closeParses fl v = false) :
    ∃ err, fl.ParseFloat c = .error err := by
  unfold closeParses parses at h
  rw [hc] at h
  cases hp : fl.ParseFloat c with
  | error e => exact ⟨e, rfl⟩
  | ok p => simp [hp] at h

theorem trimStep_all_parse (fl : GoFloat) (env : EnvironmentVariables) (lq : Quote) (s : World)
    (h0 : 0 ≤ env.nDays) (h1 : env.nDays ≤ lq.Dayquotes.len)
    (hparse : ∀ d, d ∈ selectedDays lq env.nDays → closeParses fl (lq.Dayquotes.get d) = true) :
    trimStep fl env (some lq) s =
      finish fl env lq.Metadata
        ((selectedDays lq env.nDays).foldl (fun m d => Entries.set m d (lq.Dayquotes.get d)) [])
        (sumCloses fl (closeStrings lq.Dayquotes (selectedDays lq env.nDays)) fl.zero)
        { s with parsed := s.parsed ++ closeStrings lq.Dayquotes (selectedDays lq env.nDays) } := by
  rw [trimStep_enough fl env lq s h0 h1, closeLoop_all_parse fl _ _ _ _ _ hparse]

/-- The trim step leaves a quote document in the body only when there are
enough days, the closes of all selected days parse and the metadata map is not
nil; the document is then the one built from the selected days. -/
theorem trimStep_wrote (fl : GoFloat) (env : EnvironmentVariables) (lq : Quote) (s : World)
    (T : Quote) (h : (trimStep fl env (some lq) s).outcome.document = some T) :
    0 ≤ env.nDays ∧ env.nDays ≤ lq.Dayquotes.len ∧
      (∀ d, d ∈ selectedDays lq env.nDays → closeParses fl (lq.Dayquotes.get d) = true) ∧
      ∃ md, lq.Metadata = some md ∧
        T = ⟨some (md.set METADATA_AVERAGE_CLOSING_PRICE_LABEL
              (.string (averageOf fl (closeStrings lq.Dayquotes (selectedDays lq env.nDays))
                env.nDays))),
            some ((selectedDays lq env.nDays).foldl
              (fun m d => Entries.set m d (lq.Dayquotes.get d)) [])⟩ ∧
        trimStep fl env (some lq) s =
          ⟨.returned
            { s with parsed := s.parsed ++ closeStrings lq.Dayquotes (selectedDays lq env.nDays),
                     w := s.w.Write (Chunk.json T) },
            T.Metadata⟩ := by
  by_cases hlt : (lq.Dayquotes.len : Int) < env.nDays
  · rw [trimStep_insufficient fl env lq s hlt, document_httpError] at h
    cases h
  by_cases hneg : env.nDays < 0
  · obtain ⟨v, hv⟩ := trimStep_negative fl env lq s hneg
    rw [hv, document_panicked] at h
    cases h
  have h0 : 0 ≤ env.nDays := not_lt.1 hneg
  have h1 : env.nDays ≤ lq.Dayquotes.len := not_lt.1 hlt
  by_cases hall : ∀ d, d ∈ selectedDays lq env.nDays →
      closeParses fl (lq.Dayquotes.get d) = true
  · refine ⟨h0, h1, hall, ?_⟩
    rw [trimStep_all_parse fl env lq s h0 h1 hall] at h ⊢
    cases hmd : lq.Metadata with
    | none =>
      rw [hmd] at h
      simp [finish, Outcome.document, Outcome.world] at h
    | some md =>
      rw [hmd] at h
      rw [finish_some, document_Write_json] at h
      refine ⟨md, rfl, ?_, ?_⟩
      · exact (Option.some.inj h).symm
      · rw [finish_some]
        have hT := (Option.some.inj h).symm
        rw [hT]
  · exfalso
    have hex : ∃ d, d ∈ selectedDays lq env.nDays ∧
        (fun d => closeParses fl (lq.Dayquotes.get d)) d = false := by
      by_contra hno
      apply hall
      intro d hd
      by_contra hd1
      exact hno ⟨d, hd, by simpa using hd1⟩
    obtain ⟨pre, d, post, hsel, hpre, hd⟩ := exists_first_failure _ _ hex
    cases hc : closeString (lq.Dayquotes.get d) with
    | none =>
      obtain ⟨v, s1, hv⟩ :=
        closeLoop_first_panic fl lq.Dayquotes pre d post [] fl.zero s hpre hc
      rw [trimStep_enough fl env lq s h0 h1, hsel, hv] at h
      cases h
    | some c =>
      obtain ⟨err, he⟩ := closeParses_false fl _ c hc hd
      rw [trimStep_malformed fl env lq s h0 h1 pre d post c err hsel hpre hc he,
        document_of_httpError _ s.w _ _ rfl] at h
      cases h

/-! ### The document built from a document already trimmed -/

theorem sortStrings_of_sorted (l : List String)
    (h : l.Sorted (fun a b : String => a.toList ≤ b.toList)) : sortStrings l = l :=
  List.Sorted.insertionSort_eq h

theorem selectedDays_sorted_toList (lq : Quote) (n : Int) :
    (selectedDays lq n).Sorted (fun a b : String => a.toList ≤ b.toList) := by
  haveI : IsTotal String (fun a b => a.toList ≤ b.toList) := ⟨fun a b => le_total _ _⟩
  haveI : IsTrans String (fun a b => a.toList ≤ b.toList) := ⟨fun a b c => le_trans⟩
  exact List.Pairwise.sublist (List.drop_sublist _ _)
    (List.sorted_insertionSort (fun a b : String => a.toList ≤ b.toList) _)

theorem selectedDays_shortQuoteOf (fl : GoFloat) (lq : Quote) (md : Entries) (n : Int)
    (h0 : 0 ≤ n) (h1 : n ≤ lq.Dayquotes.len) :
    selectedDays (shortQuoteOf fl lq md n) n = selectedDays lq n := by
  have hlen := selectedDays_length lq n h0 h1
  have hk : (shortQuoteOf fl lq md n).Dayquotes.keys = selectedDays lq n := by
    simp [shortQuoteOf, GoMap.keys, restrictTo_keys]
  have hl : ((shortQuoteOf fl lq md n).Dayquotes.len : Int) = n := by
    rw [← keys_length, hk, hlen]
  conv_lhs => unfold selectedDays
  rw [hk, hl, sortStrings_of_sorted _ (selectedDays_sorted_toList lq n)]
  simp

theorem shortQuoteOf_get (fl : GoFloat) (lq : Quote) (md : Entries) (n : Int) (d : String)
    (hd : d ∈ selectedDays lq n) :
    (shortQuoteOf fl lq md n).Dayquotes.get d = lq.Dayquotes.get d := by
  simp only [shortQuoteOf, GoMap.get]
  exact restrictTo_get _ _ d hd

theorem closeStrings_congr (m1 m2 : GoMap) (days : List String)
    (h : ∀ d, d ∈ days → m1.get d = m2.get d) : closeStrings m1 days = closeStrings m2 days := by
  induction days with
  | nil => rfl
  | cons d days ih =>
    have hd := h d (List.mem_cons_self _ _)
    have := ih (fun x hx => h x (List.mem_cons_of_mem _ hx))
    simp only [closeStrings] at this
    simp [closeStrings, List.filterMap_cons, hd, this]

theorem restrictTo_congr (m1 m2 : GoMap) (days : List String)
    (h : ∀ d, d ∈ days → m1.get d = m2.get d) : restrictTo m1 days = restrictTo m2 days := by
  induction days with
  | nil => rfl
  | cons d days ih =>
    have hd := h d (List.mem_cons_self _ _)
    have := ih (fun x hx => h x (List.mem_cons_of_mem _ hx))
    simp only [restrictTo] at this
    simp [restrictTo, hd, this]

theorem shortQuoteOf_congr (fl : GoFloat) (q1 q2 : Quote) (md : Entries) (n : Int)
    (hsel : selectedDays q1 n = selectedDays q2 n)
    (hget : ∀ d, d ∈ selectedDays q2 n → q1.Dayquotes.get d = q2.Dayquotes.get d) :
    shortQuoteOf fl q1 md n = shortQuoteOf fl q2 md n := by
  unfold shortQuoteOf
  rw [hsel, closeStrings_congr _ _ _ hget, restrictTo_congr _ _ _ hget]

/-- The document the trim step builds is a fixed point of building it. -/
theorem shortQuoteOf_idem (fl : GoFloat) (lq : Quote) (md : Entries) (n : Int)
    (h0 : 0 ≤ n) (h1 : n ≤ lq.Dayquotes.len) :
    shortQuoteOf fl (shortQuoteOf fl lq md n)
        (md.set METADATA_AVERAGE_CLOSING_PRICE_LABEL
          (.string (averageOf fl (closeStrings lq.Dayquotes (selectedDays lq n)) n))) n =
      shortQuoteOf fl lq md n := by
  have hsel := selectedDays_shortQuoteOf fl lq md n h0 h1
  have hget := fun d hd => shortQuoteOf_get fl lq md n d hd
  rw [shortQuoteOf_congr fl _ lq _ n hsel hget]
  simp only [shortQuoteOf, Entries.set_set]

/-! ### The parsed closes and the numbers decimal texts denote -/

theorem closeStrings_parsed (fl : GoFloat) (m : GoMap) :
    ∀ (days : List String) (z : fl.F),
      (∀ d, d ∈ days → closeParses fl (m.get d) = true) →
      ∃ ps : List fl.F, (closeStrings m days).map fl.ParseFloat = ps.map Except.ok ∧
        (closeStrings m days).length = days.length ∧
        sumCloses fl (closeStrings m days) z = ps.foldl fl.add z := by
  intro days
  induction days with
  | nil => intro z _; exact ⟨[], rfl, rfl, rfl⟩
  | cons d days ih =>
    intro z h
    obtain ⟨c, p, hc, hp⟩ := (closeParses_iff fl _).1 (h d (List.mem_cons_self _ _))
    obtain ⟨ps, h1, h2, h3⟩ := ih (fl.add z p) (fun x hx => h x (List.mem_cons_of_mem _ hx))
    have hcs : closeStrings m (d :: days) = c :: closeStrings m days := by
      simp [closeStrings, List.filterMap_cons, hc]
    refine ⟨p :: ps, ?_, ?_, ?_⟩
    · rw [hcs, List.map_cons, h1, hp]; rfl
    · rw [hcs, List.length_cons, h2, List.length_cons]
    · rw [hcs]
      simp only [sumCloses, List.foldl_cons, hp] at h3 ⊢
      exact h3

theorem decimalValue_big : decimalValue "10000000000000000" = some 10000000000000000 := by
  have h : readFloat "10000000000000000".toList =
      some ⟨false, false, 10000000000000000, 0, []⟩ := by
    decide!
  simp only [decimalValue, h]
  norm_num

theorem decimalValue_one : decimalValue "1" = some 1 := by
  have h : readFloat "1".toList = some ⟨false, false, 1, 0, []⟩ := by
    decide!
  simp only [decimalValue, h]
  norm_num

theorem decimalValue_stored : decimalValue "5000000000000000.00" = some 5000000000000000 := by
  have h : readFloat "5000000000000000.00".toList =
      some ⟨false, false, 500000000000000000, -2, []⟩ := by
    decide!
  simp only [decimalValue, h]
  norm_num

/-! ### C1 to C3 -/

/-- C1: when the upstream answered 200 with the document `lq` (distinct date
keys), `1 ≤ nDays`, `lq` has at least `nDays` day-entries and the closes of the
selected days parse, then `requestQuote`, given the metadata map of `lq` is not
nil, returns having written the encoding of a quote, and the day-entries of
whatever quote it writes are the source day-entries restricted to the `nDays`
greatest date keys: there are exactly `nDays` of them, with distinct keys;
every key is a key of the source and maps to the same record as in the source;
every key of the source that was dropped is smaller, in string order, than
every kept key.  For the document of the tests and `nDays = 5` the response has
status 200 and the dates 2023-01-27, 2023-01-30, 2023-01-31, 2023-02-01 and
2023-02-02. -/
theorem requestQuote_keeps_latest_days (fl : GoFloat) (env : EnvironmentVariables)
    (net : Nat → Upstream) (fuel : Nat) (r : Request) (s s1 : World) (lq : Quote)
    (hloop : retryLoop net fuel s = some (some lq, s1))
    (hN : 1 ≤ env.nDays) (hlen : env.nDays ≤ lq.Dayquotes.len)
    (hwf : lq.Dayquotes.WF)
    (hparse : ∀ d, d ∈ selectedDays lq env.nDays → closeParses fl (lq.Dayquotes.get d) = true) :
    (∀ md, lq.Metadata = some md →
        requestQuote fl env net fuel r s =
          .returned
            { s1 with
              parsed := s1.parsed ++ closeStrings lq.Dayquotes (selectedDays lq env.nDays),
              w := s1.w.Write (Chunk.json (shortQuoteOf fl lq md env.nDays)) }) ∧
      (∀ T, (requestQuote fl env net fuel r s).document = some T →
        T.Dayquotes = some (restrictTo lq.Dayquotes (selectedDays lq env.nDays))) ∧
      (((restrictTo lq.Dayquotes (selectedDays lq env.nDays)).length : Int) = env.nDays ∧
        (restrictTo lq.Dayquotes (selectedDays lq env.nDays)).WF ∧
        (∀ k, k ∈ (restrictTo lq.Dayquotes (selectedDays lq env.nDays)).keys →
          k ∈ lq.Dayquotes.keys ∧
            (restrictTo lq.Dayquotes (selectedDays lq env.nDays)).get k = lq.Dayquotes.get k) ∧
        (∀ k k1, k ∈ (restrictTo lq.Dayquotes (selectedDays lq env.nDays)).keys →
          k1 ∈ lq.Dayquotes.keys →
          k1 ∉ (restrictTo lq.Dayquotes (selectedDays lq env.nDays)).keys → k1 < k)) ∧
      (requestQuote binary64 (testEnv 5) (okNet METADATA) 1 getQuote World.init).status =
        some 200 ∧
      (requestQuote binary64 (testEnv 5) (okNet METADATA) 1 getQuote World.init).days =
        some ["2023-01-27", "2023-01-30", "2023-01-31", "2023-02-01", "2023-02-02"] := by
  have hreq := requestQuote_of_loop fl env net fuel r s s1 _ hloop
  refine ⟨fun md hmd => ?_, fun T hT => ?_, ⟨?_, ?_, ?_, ?_⟩, by decide!, by decide!⟩
  · rw [hreq, trimStep_success fl env lq md s1 (by omega) hlen hwf hmd hparse]
  · rw [hreq] at hT
    obtain ⟨_, _, _, md, _, hT1, _⟩ := trimStep_wrote fl env lq s1 T hT
    rw [hT1, foldl_set_eq _ _ _ (selectedDays_nodup lq env.nDays hwf) (by simp [Entries.keys])]
    rfl
  · have h := selectedDays_length lq env.nDays (by omega) hlen
    simpa [restrictTo] using h
  · simpa [Entries.WF, restrictTo_keys] using selectedDays_nodup lq env.nDays hwf
  · intro k hk
    rw [restrictTo_keys] at hk
    exact ⟨selectedDays_subset lq _ k hk, restrictTo_get _ _ k hk⟩
  · intro k k1 hk hk1 hnot
    rw [restrictTo_keys] at hk hnot
    refine lt_of_le_of_ne (selectedDays_greatest lq env.nDays k k1 hk hk1 hnot) ?_
    rintro rfl
    exact hnot hk

set_option maxRecDepth 100000 in
theorem requestQuote_keeps_latest_days_witness :
    requestQuote binary64 (testEnv 5) (okNet METADATA) 1 getQuote World.init =
      .returned
        { ({ World.init with fetches := 1 } : World) with
          parsed := [] ++ closeStrings METADATA.Dayquotes (selectedDays METADATA 5),
          w := ResponseWriter.fresh.Write
            (Chunk.json (shortQuoteOf binary64 METADATA testMetadata 5)) } :=
  (requestQuote_keeps_latest_days binary64 (testEnv 5) (okNet METADATA) 1 getQuote World.init
    { World.init with fetches := 1 } METADATA rfl (by decide) (by decide)
    (by decide) (by decide!)).1 testMetadata rfl

/-- C2: when the upstream answered 200 with the document `lq` and `1 ≤ nDays`,
`requestQuote` returns after the insufficient-data failure exactly when `lq`
has fewer than `nDays` day-entries.  In that case it called `http.Error` with
the message of line 236 and 400 and nothing else happened: no document is in
the body, `strconv.ParseFloat` was not called, and on a writer nothing was
written to the response is status 400 with the message and a newline as body.
For the document of the tests and `nDays = 10` the status is 400. -/
theorem requestQuote_insufficient_iff (fl : GoFloat) (env : EnvironmentVariables)
    (net : Nat → Upstream) (fuel : Nat) (r : Request) (s s1 : World) (lq : Quote)
    (hloop : retryLoop net fuel s = some (some lq, s1)) (hN : 1 ≤ env.nDays) :
    ((requestQuote fl env net fuel r s).isInsufficientData s1.w ↔
        (lq.Dayquotes.len : Int) < env.nDays) ∧
      ((lq.Dayquotes.len : Int) < env.nDays →
        requestQuote fl env net fuel r s =
            .returned
              { s1 with w := httpError s1.w (insufficientMsg lq.Dayquotes.len env.nDays)
                          StatusBadRequest } ∧
          (requestQuote fl env net fuel r s).document = none ∧
          (requestQuote fl env net fuel r s).world.map (fun s2 => s2.parsed) = some s1.parsed ∧
          (s1.w.wroteHeader = false →
            httpError s1.w (insufficientMsg lq.Dayquotes.len env.nDays) StatusBadRequest =
              ⟨true, 400,
                s1.w.body ++ [Chunk.text (insufficientMsg lq.Dayquotes.len env.nDays ++ "\n")]⟩)) ∧
      (requestQuote binary64 (testEnv 10) (okNet METADATA) 1 getQuote World.init).status =
        some 400 := by
  have hreq := requestQuote_of_loop fl env net fuel r s s1 _ hloop
  have hfail : (lq.Dayquotes.len : Int) < env.nDays →
      requestQuote fl env net fuel r s =
        .returned
          { s1 with w := httpError s1.w (insufficientMsg lq.Dayquotes.len env.nDays)
                      StatusBadRequest } := by
    intro h
    rw [hreq, trimStep_insufficient fl env lq s1 h]
  refine ⟨⟨fun h => ?_, fun h => ⟨_, _, _, hfail h, rfl⟩⟩,
    fun h => ⟨hfail h, ?_, ?_, fun hw => ?_⟩, by decide!⟩
  · by_contra hge
    obtain ⟨s2, a, n, ho, hw⟩ := h
    rw [hreq] at ho
    rcases trimStep_enough_cases fl env lq s1 (by omega) (not_lt.1 hge) with
      ⟨v, s3, h3⟩ | ⟨s3, d, c, e, h3, hw3⟩ | ⟨s3, q, h3, hw3⟩
    · rw [h3] at ho; cases ho
    · rw [h3] at ho
      cases ho
      exact malformed_ne_insufficient _ _ _ _ _ _ _ _ (hw3.symm.trans hw)
    · rw [h3] at ho
      cases ho
      exact Write_json_ne_httpError _ _ _ _ (hw3.symm.trans hw)
  · rw [hfail h, document_httpError]
  · rw [hfail h]; rfl
  · rw [httpError_fresh _ _ _ hw]; rfl

theorem requestQuote_insufficient_iff_witness :
    requestQuote binary64 (testEnv 10) (okNet METADATA) 1 getQuote World.init =
      .returned
        { ({ World.init with fetches := 1 } : World) with
          w := httpError ResponseWriter.fresh
            (insufficientMsg METADATA.Dayquotes.len (testEnv 10).nDays) StatusBadRequest } :=
  ((requestQuote_insufficient_iff binary64 (testEnv 10) (okNet METADATA) 1 getQuote World.init
    { World.init with fetches := 1 } METADATA rfl (by decide)).2.1 (by decide)).1

/-- C3, the code at 8 day-entries available and 10 requested: the body of the
response is "Requested 8 days, only 10 days of data is available" and a
newline.  The number after "Requested" is the available count and the number
after "only" is the requested count: the two arguments of line 236 are in the
wrong order. -/
theorem requestQuote_insufficient_message_swapped :
    (requestQuote binary64 (testEnv 10) (okNet METADATA) 1 getQuote World.init).texts =
        some ["Requested 8 days, only 10 days of data is available\n"] ∧
      (requestQuote binary64 (testEnv 10) (okNet METADATA) 1 getQuote World.init).texts ≠
        some ["Requested 10 days, only 8 days of data is available\n"] := by
  constructor <;> decide!

/-! ### C4 -/

set_option maxRecDepth 100000 in
/-- C4, counterexample: a document of two days with the closes
"10000000000000000" and "1", both selected with `nDays = 2`.  The exact mean
of the two numbers is 5000000000000000.5; the value `requestQuote` stores under
"6. Average Close" is "5000000000000000.00", which is half a unit away from
it: the `float64` sum of the two closes is 10000000000000000. -/
theorem average_close_counterexample :
    closeStrings bigCloseQuote.Dayquotes (selectedDays bigCloseQuote 2) =
        ["10000000000000000", "1"] ∧
      decimalValue "10000000000000000" = some 10000000000000000 ∧
      decimalValue "1" = some 1 ∧
      (requestQuote binary64 (testEnv 2) (okNet bigCloseQuote) 1 getQuote
        World.init).averageClose = some "5000000000000000.00" ∧
      ¬ agreesToTwoDecimals "5000000000000000.00" (exactMean [10000000000000000, 1] 2) := by
  refine ⟨by decide, decimalValue_big, decimalValue_one, by decide!, ?_⟩
  rintro ⟨v, hv, hlt⟩
  rw [decimalValue_stored] at hv
  cases hv
  norm_num [exactMean, abs_lt] at hlt

set_option maxRecDepth 100000 in
/-- C4, as the code has it: when the upstream answered 200 with the document
`lq` and `requestQuote` leaves the document `T` in the body, the closes of the `nDays` selected days, taken in ascending date order,
were all parsed, to the `float64` values `ps`, and the value under
"6. Average Close" in `T` is `FormatFloat(sum/float64(nDays), 'f', 2, 64)`
where `sum` is the `float64` sum of `ps`, added one after the other to 0: every
operation is one of `float64`, not of exact numbers.  The closes of days that
are not selected do not contribute: a document with the same selected days and
the same records for them gets the same value.  For a finite `float64` the
formatted text is the sign, the integer part, a point and exactly two digits,
and denotes the value rounded to the nearest hundredth, ties to even.  In the
scenario of the specification (the 8 entries of the tests, `nDays = 5`) the
selected closes are 264.6, 242.71, 247.81, 252.75, 264.6 and the value is
"254.49". -/
theorem average_close_float64 (fl : GoFloat) (env : EnvironmentVariables)
    (net : Nat → Upstream) (fuel : Nat) (r : Request) (s0 s : World) (lq T : Quote)
    (hloop : retryLoop net fuel s0 = some (some lq, s))
    (hdoc : (requestQuote fl env net fuel r s0).document = some T) :
    (∃ ps : List fl.F,
        (closeStrings lq.Dayquotes (selectedDays lq env.nDays)).map fl.ParseFloat =
          ps.map Except.ok ∧
        ((closeStrings lq.Dayquotes (selectedDays lq env.nDays)).length : Int) = env.nDays ∧
        T.Metadata.get METADATA_AVERAGE_CLOSING_PRICE_LABEL =
          .string (fl.FormatFloat (fl.div (ps.foldl fl.add fl.zero) (fl.ofInt env.nDays)))) ∧
      (∀ (lq2 : Quote) (s2 : World) (T2 : Quote),
        (trimStep fl env (some lq2) s2).outcome.document = some T2 →
        selectedDays lq2 env.nDays = selectedDays lq env.nDays →
        (∀ d, d ∈ selectedDays lq env.nDays → lq2.Dayquotes.get d = lq.Dayquotes.get d) →
        T2.Metadata.get METADATA_AVERAGE_CLOSING_PRICE_LABEL =
          T.Metadata.get METADATA_AVERAGE_CLOSING_PRICE_LABEL) ∧
      (∀ (neg : Bool) (a b : Nat), ∃ i d1 d2 : Nat, d1 < 10 ∧ d2 < 10 ∧
        100 * i + 10 * d1 + d2 = roundHalfEven (100 * a) b ∧
        binary64.FormatFloat (F64.finite neg a b) =
          (if neg then "-" else "") ++ toString i ++ "." ++
            String.mk [Nat.digitChar d1, Nat.digitChar d2]) ∧
      closeStrings METADATA.Dayquotes (selectedDays METADATA 5) =
        ["264.6", "242.71", "247.81", "252.75", "264.6"] ∧
      (requestQuote binary64 (testEnv 5) (okNet METADATA) 1 getQuote World.init).averageClose =
        some "254.49" := by
  have h : (trimStep fl env (some lq) s).outcome.document = some T := by
    rw [← requestQuote_of_loop fl env net fuel r s0 s _ hloop]
    exact hdoc
  obtain ⟨h0, h1, hall, md, hmd, hT, _⟩ := trimStep_wrote fl env lq s T h
  have havg : T.Metadata.get METADATA_AVERAGE_CLOSING_PRICE_LABEL =
      .string (averageOf fl (closeStrings lq.Dayquotes (selectedDays lq env.nDays))
        env.nDays) := by
    rw [hT]
    exact Entries.get_set_self _ _ _
  refine ⟨?_, ?_, ?_, by decide, by decide!⟩
  · obtain ⟨ps, hp1, hp2, hp3⟩ := closeStrings_parsed fl lq.Dayquotes _ fl.zero hall
    refine ⟨ps, hp1, ?_, ?_⟩
    · rw [hp2]; exact selectedDays_length lq env.nDays h0 h1
    · rw [havg, averageOf, hp3]
  · intro lq2 s2 T2 h2 hsel hget
    obtain ⟨_, _, _, md2, _, hT2, _⟩ := trimStep_wrote fl env lq2 s2 T2 h2
    have havg2 : T2.Metadata.get METADATA_AVERAGE_CLOSING_PRICE_LABEL =
        .string (averageOf fl (closeStrings lq2.Dayquotes (selectedDays lq2 env.nDays))
          env.nDays) := by
      rw [hT2]
      exact Entries.get_set_self _ _ _
    rw [havg, havg2, hsel, closeStrings_congr _ _ _ hget]
  · intro neg a b
    refine ⟨roundHalfEven (100 * a) b / 100, roundHalfEven (100 * a) b / 10 % 10,
      roundHalfEven (100 * a) b % 10, ?_, ?_, ?_, rfl⟩
    · exact Nat.mod_lt _ (by decide)
    · exact Nat.mod_lt _ (by decide)
    · omega

set_option maxRecDepth 100000 in
theorem average_close_float64_witness :
    ∃ ps : List binary64.F,
      (closeStrings METADATA.Dayquotes (selectedDays METADATA (testEnv 5).nDays)).map
          binary64.ParseFloat = ps.map Except.ok ∧
        ((closeStrings METADATA.Dayquotes (selectedDays METADATA (testEnv 5).nDays)).length : Int)
          = (testEnv 5).nDays ∧
        (shortQuoteOf binary64 METADATA testMetadata 5).Metadata.get
            METADATA_AVERAGE_CLOSING_PRICE_LABEL =
          .string (binary64.FormatFloat
            (binary64.div (ps.foldl binary64.add binary64.zero)
              (binary64.ofInt (testEnv 5).nDays))) :=
  (average_close_float64 binary64 (testEnv 5) (okNet METADATA) 1 getQuote World.init
    { World.init with fetches := 1 } METADATA (shortQuoteOf binary64 METADATA testMetadata 5) rfl
    (by
      rw [requestQuote_of_loop binary64 (testEnv 5) (okNet METADATA) 1 getQuote World.init
        { World.init with fetches := 1 } (some METADATA) rfl,
        trimStep_success binary64 (testEnv 5) METADATA testMetadata _ (by decide)
        (by decide) (by decide) rfl (by decide!)]
      exact document_Write_json _ _)).1

/-! ### C5 -/

set_option maxRecDepth 100000 in
/-- C5: when the upstream answered 200 with the document `lq`, `1 ≤ nDays`,
`lq` has at least `nDays` day-entries and the record of every selected day is
an object with a string under "4. close", `requestQuote` returns after the
malformed-price failure exactly when `strconv.ParseFloat` rejects the close of
some selected day.  The selected days are visited in ascending order, and with
`d` the first of them whose close `c` is rejected, with the error `err`, the
handler called `http.Error` with "unable to parse `d` closing price `c`: `err`"
and 400 after parsing the closes up to `c`; no document is in the body and the
metadata map is as it was, so without the key "6. Average Close" unless the
source had it.  The `float64` parser rejects "abc": for a document whose later
day, 2023-02-02, has the close "abc" the response is status 400 with a message
that names that date and "abc". -/
theorem requestQuote_malformed_iff (fl : GoFloat) (env : EnvironmentVariables)
    (net : Nat → Upstream) (fuel : Nat) (r : Request) (s s1 : World) (lq : Quote)
    (hloop : retryLoop net fuel s = some (some lq, s1))
    (hN : 1 ≤ env.nDays) (hlen : env.nDays ≤ lq.Dayquotes.len)
    (hclose : ∀ d, d ∈ selectedDays lq env.nDays → hasClose (lq.Dayquotes.get d) = true) :
    ((requestQuote fl env net fuel r s).isMalformedPrice s1.w ↔
        ∃ d, d ∈ selectedDays lq env.nDays ∧ closeParses fl (lq.Dayquotes.get d) = false) ∧
      (selectedDays lq env.nDays).Sorted (fun a b : String => a ≤ b) ∧
      (∀ pre d post, selectedDays lq env.nDays = pre ++ d :: post →
        (∀ x, x ∈ pre → closeParses fl (lq.Dayquotes.get x) = true) →
        closeParses fl (lq.Dayquotes.get d) = false →
        ∃ c err, closeString (lq.Dayquotes.get d) = some c ∧ fl.ParseFloat c = .error err ∧
          requestQuote fl env net fuel r s =
            .returned
              { s1 with parsed := s1.parsed ++ closeStrings lq.Dayquotes pre ++ [c],
                        w := httpError s1.w
                          ("unable to parse " ++ d ++ " closing price " ++ c ++ ": " ++ err)
                          StatusBadRequest } ∧
          (requestQuote fl env net fuel r s).document = none ∧
          (trimStep fl env (some lq) s1).metadata = lq.Metadata ∧
          (s1.w.wroteHeader = false →
            httpError s1.w ("unable to parse " ++ d ++ " closing price " ++ c ++ ": " ++ err)
                StatusBadRequest =
              ⟨true, 400,
                s1.w.body ++
                  [Chunk.text ("unable to parse " ++ d ++ " closing price " ++ c ++ ": " ++ err
                    ++ "\n")]⟩)) ∧
      parses binary64 "abc" = false ∧
      (requestQuote binary64 (testEnv 2) (okNet badCloseQuote) 1 getQuote World.init).status =
        some 400 ∧
      (requestQuote binary64 (testEnv 2) (okNet badCloseQuote) 1 getQuote World.init).texts =
        some ["unable to parse 2023-02-02 closing price abc: " ++
          "strconv.ParseFloat: parsing \"abc\": invalid syntax\n"] := by
  have hreq := requestQuote_of_loop fl env net fuel r s s1 _ hloop
  have h0 : 0 ≤ env.nDays := by omega
  have hfirst : ∀ pre d post, selectedDays lq env.nDays = pre ++ d :: post →
      (∀ x, x ∈ pre → closeParses fl (lq.Dayquotes.get x) = true) →
      closeParses fl (lq.Dayquotes.get d) = false →
      ∃ c err, closeString (lq.Dayquotes.get d) = some c ∧ fl.ParseFloat c = .error err ∧
        trimStep fl env (some lq) s1 =
          ⟨.returned
            { s1 with parsed := s1.parsed ++ closeStrings lq.Dayquotes pre ++ [c],
                      w := httpError s1.w (malformedMsg d c err) StatusBadRequest },
            lq.Metadata⟩ := by
    intro pre d post hsel hpre hd
    have hmem : d ∈ selectedDays lq env.nDays := by rw [hsel]; simp
    have hcl := hclose d hmem
    unfold hasClose at hcl
    obtain ⟨c, hc⟩ := Option.isSome_iff_exists.1 hcl
    obtain ⟨err, he⟩ := closeParses_false fl _ c hc hd
    exact ⟨c, err, hc, he, trimStep_malformed fl env lq s1 h0 hlen pre d post c err hsel hpre hc he⟩
  refine ⟨⟨fun h => ?_, fun h => ?_⟩, selectedDays_sorted lq env.nDays, ?_, by decide,
    by decide!, by decide!⟩
  · by_contra hno
    have hall : ∀ d, d ∈ selectedDays lq env.nDays →
        closeParses fl (lq.Dayquotes.get d) = true := by
      intro d hd
      by_contra hd1
      exact hno ⟨d, hd, by simpa using hd1⟩
    obtain ⟨s2, d, c, e, ho, hw⟩ := h
    rw [hreq, trimStep_all_parse fl env lq s1 h0 hlen hall] at ho
    cases hmd : lq.Metadata with
    | none =>
      rw [hmd] at ho
      simp [finish] at ho
    | some md =>
      rw [hmd, finish_some] at ho
      cases ho
      exact Write_json_ne_httpError _ _ _ _ hw
  · obtain ⟨pre, d, post, hsel, hpre, hd⟩ :=
      exists_first_failure (fun d => closeParses fl (lq.Dayquotes.get d)) _ h
    obtain ⟨c, err, _, _, ht⟩ := hfirst pre d post hsel hpre hd
    exact ⟨_, d, c, err, by rw [hreq, ht], rfl⟩
  · intro pre d post hsel hpre hd
    obtain ⟨c, err, hc, he, ht⟩ := hfirst pre d post hsel hpre hd
    refine ⟨c, err, hc, he, by rw [hreq, ht]; rfl, ?_, by rw [ht], fun hw => ?_⟩
    · rw [hreq, ht]
      exact document_of_httpError _ s1.w _ _ rfl
    · rw [httpError_fresh _ _ _ hw]; rfl

set_option maxRecDepth 100000 in
theorem requestQuote_malformed_iff_witness :
    (requestQuote binary64 (testEnv 2) (okNet badCloseQuote) 1 getQuote
      World.init).isMalformedPrice ResponseWriter.fresh :=
  (requestQuote_malformed_iff binary64 (testEnv 2) (okNet badCloseQuote) 1 getQuote World.init
    { World.init with fetches := 1 } badCloseQuote rfl (by decide) (by decide)
    (by decide)).1.2 ⟨"2023-02-02", by decide, by decide!⟩

/-! ### C6 -/

/-- C6: trimming is idempotent.  When the trim step on the document `lq` (with
distinct date keys) leaves the document `T` in the body, the trim step on `T`
with the same day count returns having parsed the same closes and written the
encoding of `T` again: its day-entries are those of `T`, and "6. Average Close"
is written again with the same string, so the metadata map is that of `T`. -/
theorem trim_idempotent (fl : GoFloat) (env : EnvironmentVariables) (lq : Quote) (s : World)
    (T : Quote) (hwf : lq.Dayquotes.WF)
    (h : (trimStep fl env (some lq) s).outcome.document = some T) (s2 : World) :
    trimStep fl env (some T) s2 =
        ⟨.returned
          { s2 with parsed := s2.parsed ++ closeStrings lq.Dayquotes (selectedDays lq env.nDays),
                    w := s2.w.Write (Chunk.json T) },
          T.Metadata⟩ ∧
      (trimStep fl env (some T) s2).outcome.document = some T ∧
      T.Metadata.get METADATA_AVERAGE_CLOSING_PRICE_LABEL =
        .string (averageOf fl (closeStrings lq.Dayquotes (selectedDays lq env.nDays))
          env.nDays) ∧
      T.Metadata.get METADATA_AVERAGE_CLOSING_PRICE_LABEL =
        .string (averageOf fl (closeStrings T.Dayquotes (selectedDays T env.nDays))
          env.nDays) := by
  obtain ⟨h0, h1, hall, md, hmd, hT, _⟩ := trimStep_wrote fl env lq s T h
  rw [foldl_set_eq _ _ _ (selectedDays_nodup lq env.nDays hwf) (by simp [Entries.keys]),
    List.nil_append] at hT
  have hTs : T = shortQuoteOf fl lq md env.nDays := hT
  have hsel := selectedDays_shortQuoteOf fl lq md env.nDays h0 h1
  have hget := fun d hd => shortQuoteOf_get fl lq md env.nDays d hd
  have hcs := closeStrings_congr _ _ _ hget
  have hlen : env.nDays ≤ ((shortQuoteOf fl lq md env.nDays).Dayquotes.len : Int) := by
    rw [← keys_length]
    simp only [shortQuoteOf, GoMap.keys, restrictTo_keys]
    exact le_of_eq (selectedDays_length lq env.nDays h0 h1).symm
  have hwf2 : (shortQuoteOf fl lq md env.nDays).Dayquotes.WF := by
    simpa [shortQuoteOf, GoMap.WF, Entries.WF, restrictTo_keys] using
      selectedDays_nodup lq env.nDays hwf
  have hstep : trimStep fl env (some T) s2 =
      ⟨.returned
        { s2 with parsed := s2.parsed ++ closeStrings lq.Dayquotes (selectedDays lq env.nDays),
                  w := s2.w.Write (Chunk.json T) },
        T.Metadata⟩ := by
    rw [hTs, trimStep_success fl env _ _ s2 h0 hlen hwf2 rfl
      (by
        intro d hd
        rw [hsel] at hd
        rw [hget d hd]
        exact hall d hd),
      shortQuoteOf_idem fl lq md env.nDays h0 h1, hsel, hcs]
  have havg : T.Metadata.get METADATA_AVERAGE_CLOSING_PRICE_LABEL =
      .string (averageOf fl (closeStrings lq.Dayquotes (selectedDays lq env.nDays))
        env.nDays) := by
    rw [hTs]
    exact Entries.get_set_self _ _ _
  refine ⟨hstep, ?_, havg, ?_⟩
  · rw [hstep]
    exact document_Write_json _ _
  · rw [havg, hTs, hsel, hcs]

set_option maxRecDepth 100000 in
theorem trim_idempotent_witness :
    (trimStep binary64 (testEnv 5) (some (shortQuoteOf binary64 METADATA testMetadata 5))
      World.init).outcome.document = some (shortQuoteOf binary64 METADATA testMetadata 5) :=
  (trim_idempotent binary64 (testEnv 5) METADATA World.init
    (shortQuoteOf binary64 METADATA testMetadata 5) (by decide)
    (by
      rw [trimStep_success binary64 (testEnv 5) METADATA testMetadata World.init (by decide)
        (by decide) (by decide) rfl (by decide!)]
      exact document_Write_json _ _) World.init).2.1

/-! ### C7 -/

/-- C7: when the trim step leaves the document `T` in the body, the metadata
of the source is a non-nil map `md`, and the metadata `md1` of `T`, which is
also what the shared map holds at the end, differs from `md` only at the key
"6. Average Close": every other key has the same value and is a key of `md1`
exactly when it is one of `md`; "6. Average Close" is a key of `md1`, with the
formatted average as value; when `md` does not have it, `md1` is `md` with that
one key added, and otherwise `md1` has the keys of `md`. -/
theorem trim_metadata_frame (fl : GoFloat) (env : EnvironmentVariables) (lq : Quote)
    (s : World) (T : Quote) (h : (trimStep fl env (some lq) s).outcome.document = some T) :
    ∃ md md1, lq.Metadata = some md ∧ T.Metadata = some md1 ∧
      (trimStep fl env (some lq) s).metadata = some md1 ∧
      (∀ k, k ≠ METADATA_AVERAGE_CLOSING_PRICE_LABEL →
        md1.get k = md.get k ∧ (k ∈ md1.keys ↔ k ∈ md.keys)) ∧
      METADATA_AVERAGE_CLOSING_PRICE_LABEL ∈ md1.keys ∧
      md1.get METADATA_AVERAGE_CLOSING_PRICE_LABEL =
        .string (averageOf fl (closeStrings lq.Dayquotes (selectedDays lq env.nDays))
          env.nDays) ∧
      (METADATA_AVERAGE_CLOSING_PRICE_LABEL ∉ md.keys →
        md1.keys = md.keys ++ [METADATA_AVERAGE_CLOSING_PRICE_LABEL] ∧
          md1.keys.length = md.keys.length + 1) ∧
      (METADATA_AVERAGE_CLOSING_PRICE_LABEL ∈ md.keys → md1.keys = md.keys) := by
  obtain ⟨_, _, _, md, hmd, hT, ht⟩ := trimStep_wrote fl env lq s T h
  refine ⟨md, _, hmd, by rw [hT], by rw [ht, hT], fun k hk => ⟨?_, ?_⟩, ?_, ?_, fun hn => ?_,
    fun hin => ?_⟩
  · exact Entries.get_set_ne _ _ _ _ hk
  · rw [Entries.mem_keys_set]
    constructor
    · rintro (h1 | h1)
      · exact absurd h1 hk
      · exact h1
    · exact Or.inr
  · rw [Entries.mem_keys_set]; exact Or.inl rfl
  · exact Entries.get_set_self _ _ _
  · rw [Entries.keys_set_of_not_mem _ _ _ hn]
    simp
  · exact Entries.keys_set_of_mem _ _ _ hin

set_option maxRecDepth 100000 in
theorem trim_metadata_frame_witness :
    ∃ md md1, METADATA.Metadata = some md ∧
      (shortQuoteOf binary64 METADATA testMetadata 5).Metadata = some md1 ∧
      (trimStep binary64 (testEnv 5) (some METADATA) World.init).metadata = some md1 ∧
      (∀ k, k ≠ METADATA_AVERAGE_CLOSING_PRICE_LABEL →
        md1.get k = md.get k ∧ (k ∈ md1.keys ↔ k ∈ md.keys)) ∧
      METADATA_AVERAGE_CLOSING_PRICE_LABEL ∈ md1.keys ∧
      md1.get METADATA_AVERAGE_CLOSING_PRICE_LABEL =
        .string (averageOf binary64
          (closeStrings METADATA.Dayquotes (selectedDays METADATA (testEnv 5).nDays))
          (testEnv 5).nDays) ∧
      (METADATA_AVERAGE_CLOSING_PRICE_LABEL ∉ md.keys →
        md1.keys = md.keys ++ [METADATA_AVERAGE_CLOSING_PRICE_LABEL] ∧
          md1.keys.length = md.keys.length + 1) ∧
      (METADATA_AVERAGE_CLOSING_PRICE_LABEL ∈ md.keys → md1.keys = md.keys) :=
  trim_metadata_frame binary64 (testEnv 5) METADATA World.init
    (shortQuoteOf binary64 METADATA testMetadata 5)
    (by
      rw [trimStep_success binary64 (testEnv 5) METADATA testMetadata World.init (by decide)
        (by decide) (by decide) rfl (by decide!)]
      exact document_Write_json _ _)

/-! ### C8 and C9 -/

/-- C8: `validator h` passes a request whose method is empty or exactly "GET"
to `h`: its outcome is the outcome of one run of `h` on the request and the
incoming state.  For every other method (so for "PUT", "POST" and lower-case
"get") the outcome does not depend on `h`, which is not run: the handler
returns after `http.Error` with "Method Not Allowed" and 405, so that on a
writer nothing was written to the response is status 405 with the body
"Method Not Allowed" and a newline.  So `/healthz` behind the validator answers
200 with the body "ok" and a newline to "GET" and to the empty method, and 405
to "PUT", "POST" and "get". -/
theorem validator_method_check (h : Handler) (r : Request) (s : World) :
    ((r.Method = "" ∨ r.Method = "GET") → validator h r s = h r s) ∧
    (¬ (r.Method = "" ∨ r.Method = "GET") →
      validator h r s =
          .returned { s with w := httpError s.w "Method Not Allowed" 405 } ∧
        (s.w.wroteHeader = false →
          httpError s.w "Method Not Allowed" 405 =
            ⟨true, 405, s.w.body ++ [Chunk.text "Method Not Allowed\n"]⟩)) ∧
    (∀ m, m ∈ ["PUT", "POST", "get"] →
      validator h ⟨m, r.URL⟩ s =
        .returned { s with w := httpError s.w "Method Not Allowed" 405 }) ∧
    (∀ m, m ∈ ["GET", ""] →
      (validator healthCheckHandler ⟨m, "/healthz"⟩ World.init).status = some 200 ∧
        (validator healthCheckHandler ⟨m, "/healthz"⟩ World.init).texts = some ["ok\n"]) ∧
    (∀ m, m ∈ ["PUT", "POST", "get"] →
      (validator healthCheckHandler ⟨m, "/healthz"⟩ World.init).status = some 405 ∧
        (validator healthCheckHandler ⟨m, "/healthz"⟩ World.init).texts =
          some ["Method Not Allowed\n"]) := by
  refine ⟨fun hm => ?_, fun hm => ⟨?_, fun hw => ?_⟩, fun m hmem => ?_, by decide, by decide⟩
  · simp [validator, ALLOWED_METHOD, hm]
  · simp [validator, ALLOWED_METHOD, hm, StatusText, StatusMethodNotAllowed]
  · rw [httpError_fresh _ _ _ hw]; rfl
  · have hm : ¬ (m = "" ∨ m = "GET") := by
      simp only [List.mem_cons, List.mem_singleton, List.not_mem_nil, or_false] at hmem
      rcases hmem with rfl | rfl | rfl <;> decide
    simp [validator, ALLOWED_METHOD, hm, StatusText, StatusMethodNotAllowed]

theorem validator_method_check_witness :
    validator healthCheckHandler ⟨"DELETE", "/healthz"⟩ World.init =
        .returned { World.init with w := httpError World.init.w "Method Not Allowed" 405 } ∧
      httpError World.init.w "Method Not Allowed" 405 =
        ⟨true, 405, World.init.w.body ++ [Chunk.text "Method Not Allowed\n"]⟩ ∧
      validator healthCheckHandler ⟨"GET", "/healthz"⟩ World.init =
        healthCheckHandler ⟨"GET", "/healthz"⟩ World.init :=
  ⟨((validator_method_check healthCheckHandler ⟨"DELETE", "/healthz"⟩ World.init).2.1
      (by decide)).1,
    ((validator_method_check healthCheckHandler ⟨"DELETE", "/healthz"⟩ World.init).2.1
      (by decide)).2 rfl,
    (validator_method_check healthCheckHandler ⟨"GET", "/healthz"⟩ World.init).1
      (Or.inr rfl)⟩

/-- C9, as the code has it: when `h` panics with a non-nil value `v`,
`recoverHandler h` returns normally, has logged the one line "panic: " followed
by `v`, and has called `http.Error` with "Internal Server Error" and 500: the
response is status 500 with that text when `h` had written nothing before the
panic; when `h` had written the header, its status stands and the text is
appended to the body.  When `h` returns, the outcome is exactly that of `h`.
For the handler of `TestRecoverHandler`, which panics with "Test panic" before
writing, the response is status 500 with "Internal Server Error" and the log
has the one line "panic: Test panic". -/
theorem recoverHandler_converts_panic (h : Handler) (r : Request) (s s1 : World) :
    (∀ v, h r s = .panicked (some v) s1 →
      recoverHandler h r s =
          .returned { s1 with log := s1.log ++ ["panic: " ++ v],
                              w := httpError s1.w "Internal Server Error" 500 } ∧
        (s1.w.wroteHeader = false →
          httpError s1.w "Internal Server Error" 500 =
            ⟨true, 500, s1.w.body ++ [Chunk.text "Internal Server Error\n"]⟩) ∧
        (s1.w.wroteHeader = true →
          httpError s1.w "Internal Server Error" 500 =
            ⟨true, s1.w.code, s1.w.body ++ [Chunk.text "Internal Server Error\n"]⟩)) ∧
    (h r s = .returned s1 → recoverHandler h r s = .returned s1) ∧
    ((recoverHandler testPanicHandler getQuote World.init).status = some 500 ∧
      (recoverHandler testPanicHandler getQuote World.init).texts =
        some ["Internal Server Error\n"] ∧
      (recoverHandler testPanicHandler getQuote World.init).logged =
        some ["panic: Test panic"]) := by
  refine ⟨fun v hv => ⟨?_, fun hw => ?_, fun hw => ?_⟩, fun hr => ?_, by decide⟩
  · simp [recoverHandler, hv, World.logPrint, StatusText, StatusInternalServerError]
  · rw [httpError_fresh _ _ _ hw]; rfl
  · rw [httpError_written _ _ _ hw]; rfl
  · simp [recoverHandler, hr]

theorem recoverHandler_converts_panic_witness :
    recoverHandler writeThenPanic ⟨"GET", "/quote"⟩ World.init =
        .returned
          { (⟨World.init.w.Write (Chunk.text "partial"), [], [], 0, []⟩ : World) with
            log := [] ++ ["panic: " ++ "boom"],
            w := httpError (World.init.w.Write (Chunk.text "partial"))
              "Internal Server Error" 500 } ∧
      recoverHandler healthCheckHandler ⟨"GET", "/healthz"⟩ World.init =
        .returned { World.init with w := World.init.w.Write (Chunk.text "ok\n") } :=
  ⟨((recoverHandler_converts_panic writeThenPanic ⟨"GET", "/quote"⟩ World.init
      ⟨World.init.w.Write (Chunk.text "partial"), [], [], 0, []⟩).1 "boom" rfl).1,
    (recoverHandler_converts_panic healthCheckHandler ⟨"GET", "/healthz"⟩ World.init
      { World.init with w := World.init.w.Write (Chunk.text "ok\n") }).2.1 rfl⟩

/-- C9, counterexample: a handler that writes part of the body and then panics
with the value "boom".  The response `recoverHandler` leaves has status 200,
not 500. -/
theorem recoverHandler_status_counterexample :
    (recoverHandler writeThenPanic ⟨"GET", "/quote"⟩ World.init).world.map (fun s => s.w.code)
        = some 200 ∧
      (recoverHandler writeThenPanic ⟨"GET", "/quote"⟩ World.init).world.map
          (fun s => s.w.code) ≠ some 500 := by
  constructor
  · rfl
  · simp [recoverHandler, writeThenPanic, Outcome.world, World.init, World.logPrint, httpError,
      ResponseWriter.Write, ResponseWriter.WriteHeader, ResponseWriter.fresh]

/-! ### C10 -/

/-- C10: when the calls of `getQuotesFromServer` from the incoming state on
return a status other than 200 `k` times and then 200, the retry loop ends,
given fuel for more than `k` iterations, after exactly `k + 1` calls with the
document of the last one.  It has logged, for each of the `k` failed attempts
in order, what the call itself logged and then once the line with the status
of that attempt, and has slept the 30 seconds once for each; the response
writer is untouched.  `requestQuote` goes on with that document, and the
documents of the failed attempts do not matter: an upstream with the same
statuses and log lines in the failed attempts and the same last answer gives
the same result. -/
theorem retryLoop_until_ok (fl : GoFloat) (env : EnvironmentVariables) (net : Nat → Upstream)
    (r : Request) (s : World) (k fuel : Nat)
    (hfail : ∀ i, i < k → (net (s.fetches + i)).result.2 ≠ StatusOK)
    (hok : (net (s.fetches + k)).result.2 = StatusOK) (hfuel : k < fuel) :
    retryLoop net fuel s =
        some ((net (s.fetches + k)).result.1,
          { s with
            fetches := s.fetches + k + 1
            log := s.log ++ (List.range k).flatMap (fun i =>
              (net (s.fetches + i)).logged ++
                ["remote service response:" ++ toString (net (s.fetches + i)).result.2 ++ "\n"])
            slept := s.slept ++ List.replicate k (30 * 1000000000) }) ∧
      requestQuote fl env net fuel r s =
        (trimStep fl env (net (s.fetches + k)).result.1
          { s with
            fetches := s.fetches + k + 1
            log := s.log ++ (List.range k).flatMap (fun i =>
              (net (s.fetches + i)).logged ++
                ["remote service response:" ++ toString (net (s.fetches + i)).result.2 ++ "\n"])
            slept := s.slept ++ List.replicate k (30 * 1000000000) }).outcome ∧
      ∀ net1 : Nat → Upstream,
        (∀ i, i < k → (net1 (s.fetches + i)).result.2 = (net (s.fetches + i)).result.2 ∧
          (net1 (s.fetches + i)).logged = (net (s.fetches + i)).logged) →
        net1 (s.fetches + k) = net (s.fetches + k) →
        retryLoop net1 fuel s = retryLoop net fuel s := by
  have h1 := retryLoop_after_failures net k s fuel hfail hok hfuel
  have h2 : retryLoop net fuel s =
      some ((net (s.fetches + k)).result.1,
        { s with
          fetches := s.fetches + k + 1
          log := s.log ++ (List.range k).flatMap (fun i =>
            (net (s.fetches + i)).logged ++
              ["remote service response:" ++ toString (net (s.fetches + i)).result.2 ++ "\n"])
          slept := s.slept ++ List.replicate k (30 * 1000000000) }) := by
    rw [h1]
    simp only [attemptLog, retryTimeout]
  refine ⟨h2, requestQuote_of_loop fl env net fuel r s _ _ h2, ?_⟩
  intro net1 hsame hlast
  rw [h1, retryLoop_after_failures net1 k s fuel
    (fun i hi => by rw [(hsame i hi).1]; exact hfail i hi) (by rw [hlast]; exact hok) hfuel, hlast]
  have hlog : (List.range k).flatMap (fun i => attemptLog (net1 (s.fetches + i))) =
      (List.range k).flatMap (fun i => attemptLog (net (s.fetches + i))) := by
    apply List.flatMap_congr
    intro i hi
    have := hsame i (List.mem_range.1 hi)
    simp [attemptLog, this.1, this.2]
  rw [hlog]

theorem retryLoop_until_ok_witness :
    retryLoop (flakyNet METADATA) 3 World.init =
      some (((flakyNet METADATA) (World.init.fetches + 2)).result.1,
        { World.init with
          fetches := World.init.fetches + 2 + 1
          log := World.init.log ++ (List.range 2).flatMap (fun i =>
            ((flakyNet METADATA) (World.init.fetches + i)).logged ++
              ["remote service response:" ++
                toString ((flakyNet METADATA) (World.init.fetches + i)).result.2 ++ "\n"])
          slept := World.init.slept ++ List.replicate 2 (30 * 1000000000) }) :=
  (retryLoop_until_ok binary64 (testEnv 5) (flakyNet METADATA) getQuote World.init 2 3
    (by decide) (by decide) (by decide)).1

/-! ### C11 -/

theorem bitLenAux_zero (fuel acc : Nat) : bitLenAux fuel 0 acc = acc := by
  cases fuel <;> simp [bitLenAux]

/-- For a positive `n` and enough fuel the loop counts `k + 1` steps, where
`2 ^ k ≤ n`. -/
theorem bitLenAux_spec :
    ∀ (fuel n acc : Nat), n ≠ 0 → n ≤ fuel →
      ∃ k, bitLenAux fuel n acc = acc + k + 1 ∧ 2 ^ k ≤ n := by
  intro fuel
  induction fuel with
  | zero => intro n acc h0 hle; omega
  | succ fuel ih =>
    intro n acc h0 hle
    simp only [bitLenAux, h0, if_false]
    by_cases h2 : n / 2 = 0
    · refine ⟨0, ?_, ?_⟩
      · rw [h2, bitLenAux_zero]
      · simp; omega
    · obtain ⟨k, hk, hpow⟩ := ih (n / 2) (acc + 1) h2 (by omega)
      refine ⟨k + 1, ?_, ?_⟩
      · rw [hk]; omega
      · rw [pow_succ]; omega

theorem bitLen_spec (n : Nat) (h0 : n ≠ 0) : ∃ k, bitLen n = k + 1 ∧ 2 ^ k ≤ n := by
  obtain ⟨k, hk, hpow⟩ := bitLenAux_spec n n 0 h0 (le_refl n)
  exact ⟨k, by rw [bitLen, hk]; omega, hpow⟩

theorem floorLog2_one (p : Nat) (h0 : p ≠ 0) :
    ∃ k : Nat, floorLog2 p 1 = (k : Int) ∧ 2 ^ k ≤ p := by
  obtain ⟨k, hk, hpow⟩ := bitLen_spec p h0
  have h1 : bitLen 1 = 1 := by decide
  refine ⟨k, ?_, hpow⟩
  have hd : ((bitLen p : Int) - (bitLen 1 : Int)) = (k : Int) := by
    rw [hk, h1]; push_cast; ring
  simp only [floorLog2, hd]
  simp [hpow]

theorem roundHalfEven_div_one (x : Nat) : roundHalfEven x 1 = x := by
  simp [roundHalfEven, Nat.mod_one]

theorem roundHalfEven_pos (num den : Nat) (hden : 0 < den) (h : den ≤ num) :
    0 < roundHalfEven num den := by
  have hq : 0 < num / den := Nat.div_pos h hden
  unfold roundHalfEven
  simp only
  split <;> omega

/-- The conversion of a positive integer is not a zero. -/
theorem round64_int_ne_zero (neg : Bool) (p : Nat) (h0 : p ≠ 0) :
    (round64 neg p 1).isZero = false := by
  obtain ⟨k, hk, hpow⟩ := floorLog2_one p h0
  simp only [round64, h0, if_false, hk]
  by_cases hex : (0 : Int) ≤ max ((k : Int) - 52) (-1074)
  · simp only [hex, if_true]
    have hmax : max ((k : Int) - 52) (-1074) = (k : Int) - 52 := by omega
    rw [hmax]
    have hk52 : 52 ≤ k := by omega
    have htn : ((k : Int) - 52).toNat = k - 52 := by omega
    rw [htn]
    have hle : 2 ^ (k - 52) ≤ p :=
      le_trans (Nat.pow_le_pow_right (by decide) (Nat.sub_le k 52)) hpow
    have hpos : 0 < roundHalfEven p (1 * 2 ^ (k - 52)) := by
      apply roundHalfEven_pos
      · simp
      · simpa using hle
    have hpp : 0 < 2 ^ (k - 52) := Nat.pos_pow_of_pos _ (by decide)
    split
    · rfl
    · simp only [F64.isZero, decide_eq_false_iff_not]
      exact Nat.ne_of_gt (Nat.mul_pos hpos hpp)
  · simp only [hex, if_false, roundHalfEven_div_one, F64.isZero, decide_eq_false_iff_not]
    exact Nat.ne_of_gt (Nat.mul_pos (Nat.pos_of_ne_zero h0) (Nat.pos_pow_of_pos _ (by decide)))

theorem ofInt_ne_zero (n : Int) (h : 1 ≤ n) : (F64.ofInt n).isZero = false :=
  round64_int_ne_zero _ _ (by omega)

theorem Write_fresh (w : ResponseWriter) (c : Chunk) (h : w.wroteHeader = false) :
    w.Write c = ⟨true, 200, w.body ++ [c]⟩ := by
  simp [ResponseWriter.Write, ResponseWriter.WriteHeader, h]

theorem getEnvironmentVariables_nDays (getenv : String → String)
    (atoi : String → Except String Int) (e : EnvironmentVariables)
    (h : getEnvironmentVariables getenv atoi = .ok e) : 1 ≤ e.nDays := by
  unfold getEnvironmentVariables at h
  split at h
  · cases h
  · rename_i nDays _
    by_cases h1 : nDays < 1
    · simp [h1] at h
    · simp only [h1, if_false] at h
      split at h
      · cases h
      · split at h
        · cases h
        · split at h <;> (cases h; simp only []; omega)

/-- With a non-nil document and metadata map and `1 ≤ nDays`, when the records
of the selected days are objects with a string under "4. close", the trim step
ends in one of three ways, each a return. -/
theorem trimStep_three_ways (fl : GoFloat) (env : EnvironmentVariables) (lq : Quote)
    (md : Entries) (s : World) (hN : 1 ≤ env.nDays) (hmd : lq.Metadata = some md)
    (hclose : env.nDays ≤ lq.Dayquotes.len →
      ∀ d, d ∈ selectedDays lq env.nDays → hasClose (lq.Dayquotes.get d) = true) :
    ((lq.Dayquotes.len : Int) < env.nDays ∧
        trimStep fl env (some lq) s =
          ⟨.returned
            { s with w := httpError s.w (insufficientMsg lq.Dayquotes.len env.nDays)
                        StatusBadRequest },
            lq.Metadata⟩) ∨
      (env.nDays ≤ lq.Dayquotes.len ∧
        ∃ pre d post c err, selectedDays lq env.nDays = pre ++ d :: post ∧
          (∀ x, x ∈ pre → closeParses fl (lq.Dayquotes.get x) = true) ∧
          closeString (lq.Dayquotes.get d) = some c ∧ fl.ParseFloat c = .error err ∧
          trimStep fl env (some lq) s =
            ⟨.returned
              { s with parsed := s.parsed ++ closeStrings lq.Dayquotes pre ++ [c],
                       w := httpError s.w (malformedMsg d c err) StatusBadRequest },
              lq.Metadata⟩) ∨
      (env.nDays ≤ lq.Dayquotes.len ∧
        (∀ d, d ∈ selectedDays lq env.nDays → closeParses fl (lq.Dayquotes.get d) = true) ∧
        ∃ T, (lq.Dayquotes.WF → T = shortQuoteOf fl lq md env.nDays) ∧
          trimStep fl env (some lq) s =
            ⟨.returned
              { s with
                parsed := s.parsed ++ closeStrings lq.Dayquotes (selectedDays lq env.nDays),
                w := s.w.Write (Chunk.json T) },
              T.Metadata⟩) := by
  by_cases hlt : (lq.Dayquotes.len : Int) < env.nDays
  · exact Or.inl ⟨hlt, trimStep_insufficient fl env lq s hlt⟩
  have h1 : env.nDays ≤ lq.Dayquotes.len := not_lt.1 hlt
  have h0 : 0 ≤ env.nDays := by omega
  by_cases hall : ∀ d, d ∈ selectedDays lq env.nDays →
      closeParses fl (lq.Dayquotes.get d) = true
  · refine Or.inr (Or.inr ⟨h1, hall, ?_⟩)
    rw [trimStep_all_parse fl env lq s h0 h1 hall, hmd, finish_some]
    refine ⟨_, fun hwf => ?_, rfl⟩
    rw [foldl_set_eq _ _ _ (selectedDays_nodup lq env.nDays hwf) (by simp [Entries.keys])]
    rfl
  · have hex : ∃ d, d ∈ selectedDays lq env.nDays ∧
        (fun d => closeParses fl (lq.Dayquotes.get d)) d = false := by
      by_contra hno
      apply hall
      intro d hd
      by_contra hd1
      exact hno ⟨d, hd, by simpa using hd1⟩
    obtain ⟨pre, d, post, hsel, hpre, hd⟩ := exists_first_failure _ _ hex
    have hmem : d ∈ selectedDays lq env.nDays := by rw [hsel]; simp
    have hcl := hclose h1 d hmem
    unfold hasClose at hcl
    obtain ⟨c, hc⟩ := Option.isSome_iff_exists.1 hcl
    obtain ⟨err, he⟩ := closeParses_false fl _ c hc hd
    exact Or.inr (Or.inl ⟨h1, pre, d, post, c, err, hsel, hpre, hc, he,
      trimStep_malformed fl env lq s h0 h1 pre d post c err hsel hpre hc he⟩)

set_option maxRecDepth 100000 in
/-- C11: for `1 ≤ nDays`, a non-nil document with a non-nil metadata map in
which, when there are at least `nDays` day-entries, the record of every
selected day is an object with a string under "4. close", the trim step of
`requestQuote` does not panic and returns (the slice `days[available-nDays:]`
is in range, no type assertion fails, the metadata map written to is not nil).
It wrote exactly once, one chunk added to the body and nothing logged: the
message of the insufficient-data failure with 400, when there are fewer than
`nDays` entries; or the message of the malformed-price failure with 400, when
the close of a selected day is rejected; or else the encoding of the trimmed
quote, with the status 200 that a first `Write` implies.  The divisor is not
zero: `nDays` is not 0 and `float64(nDays)` is not a zero.  That `1 ≤ nDays`
holds for every `Env` that `getEnvironmentVariables` sets. -/
theorem trimStep_no_fault (fl : GoFloat) (env : EnvironmentVariables) (lq : Quote)
    (md : Entries) (s : World) (hN : 1 ≤ env.nDays) (hmd : lq.Metadata = some md)
    (hclose : env.nDays ≤ lq.Dayquotes.len →
      ∀ d, d ∈ selectedDays lq env.nDays → hasClose (lq.Dayquotes.get d) = true) :
    (∃ s1 c, (trimStep fl env (some lq) s).outcome = .returned s1 ∧
        s1.w.body = s.w.body ++ [c] ∧ s1.log = s.log ∧ s1.slept = s.slept ∧
        s1.fetches = s.fetches ∧
        (((lq.Dayquotes.len : Int) < env.nDays ∧
            s1.w = httpError s.w (insufficientMsg lq.Dayquotes.len env.nDays) StatusBadRequest) ∨
          (env.nDays ≤ lq.Dayquotes.len ∧
            ∃ d cs err, d ∈ selectedDays lq env.nDays ∧
              closeString (lq.Dayquotes.get d) = some cs ∧ fl.ParseFloat cs = .error err ∧
              s1.w = httpError s.w (malformedMsg d cs err) StatusBadRequest) ∨
          (env.nDays ≤ lq.Dayquotes.len ∧
            (∀ d, d ∈ selectedDays lq env.nDays →
              closeParses fl (lq.Dayquotes.get d) = true) ∧
            ∃ T, (lq.Dayquotes.WF → T = shortQuoteOf fl lq md env.nDays) ∧
              s1.w = s.w.Write (Chunk.json T))) ∧
        (s.w.wroteHeader = false →
          (s1.w = ⟨true, 400, s.w.body ++ [c]⟩ ∧ ∃ t, c = Chunk.text t) ∨
            (s1.w = ⟨true, 200, s.w.body ++ [c]⟩ ∧ ∃ T, c = Chunk.json T))) ∧
      (∀ v s1, (trimStep fl env (some lq) s).outcome ≠ .panicked v s1) ∧
      (trimStep fl env (some lq) s).outcome ≠ .unfinished ∧
      (env.nDays ≤ lq.Dayquotes.len →
        0 ≤ (lq.Dayquotes.len : Int) - env.nDays ∧
          (lq.Dayquotes.len : Int) - env.nDays ≤
            ((sortStrings lq.Dayquotes.keys).length : Int)) ∧
      env.nDays ≠ 0 ∧ (F64.ofInt env.nDays).isZero = false ∧
      (∀ (getenv : String → String) (atoi : String → Except String Int)
          (e : EnvironmentVariables),
        getEnvironmentVariables getenv atoi = .ok e → 1 ≤ e.nDays) := by
  have hret : ∃ s1 c, (trimStep fl env (some lq) s).outcome = .returned s1 ∧
      s1.w.body = s.w.body ++ [c] ∧ s1.log = s.log ∧ s1.slept = s.slept ∧
      s1.fetches = s.fetches ∧
      (((lq.Dayquotes.len : Int) < env.nDays ∧
          s1.w = httpError s.w (insufficientMsg lq.Dayquotes.len env.nDays) StatusBadRequest) ∨
        (env.nDays ≤ lq.Dayquotes.len ∧
          ∃ d cs err, d ∈ selectedDays lq env.nDays ∧
            closeString (lq.Dayquotes.get d) = some cs ∧ fl.ParseFloat cs = .error err ∧
            s1.w = httpError s.w (malformedMsg d cs err) StatusBadRequest) ∨
        (env.nDays ≤ lq.Dayquotes.len ∧
          (∀ d, d ∈ selectedDays lq env.nDays →
            closeParses fl (lq.Dayquotes.get d) = true) ∧
          ∃ T, (lq.Dayquotes.WF → T = shortQuoteOf fl lq md env.nDays) ∧
            s1.w = s.w.Write (Chunk.json T))) ∧
      (s.w.wroteHeader = false →
        (s1.w = ⟨true, 400, s.w.body ++ [c]⟩ ∧ ∃ t, c = Chunk.text t) ∨
          (s1.w = ⟨true, 200, s.w.body ++ [c]⟩ ∧ ∃ T, c = Chunk.json T)) := by
    rcases trimStep_three_ways fl env lq md s hN hmd hclose with
      ⟨hlt, ht⟩ | ⟨h1, pre, d, post, c, err, hsel, hpre, hc, he, ht⟩ | ⟨h1, hall, T, hT, ht⟩
    · refine ⟨{ s with w := httpError s.w (insufficientMsg lq.Dayquotes.len env.nDays)
                              StatusBadRequest },
        Chunk.text (insufficientMsg lq.Dayquotes.len env.nDays ++ "\n"),
        by rw [ht], httpError_body _ _ _, rfl, rfl, rfl, Or.inl ⟨hlt, rfl⟩, fun hw => ?_⟩
      exact Or.inl ⟨by rw [httpError_fresh _ _ _ hw]; rfl, _, rfl⟩
    · refine ⟨{ s with parsed := s.parsed ++ closeStrings lq.Dayquotes pre ++ [c],
                       w := httpError s.w (malformedMsg d c err) StatusBadRequest },
        Chunk.text (malformedMsg d c err ++ "\n"),
        by rw [ht], httpError_body _ _ _, rfl, rfl, rfl,
        Or.inr (Or.inl ⟨h1, d, c, err, by rw [hsel]; simp, hc, he, rfl⟩), fun hw => ?_⟩
      exact Or.inl ⟨by rw [httpError_fresh _ _ _ hw]; rfl, _, rfl⟩
    · refine ⟨{ s with parsed := s.parsed ++
                                   closeStrings lq.Dayquotes (selectedDays lq env.nDays),
                       w := s.w.Write (Chunk.json T) },
        Chunk.json T, by rw [ht], Write_body _ _, rfl, rfl, rfl,
        Or.inr (Or.inr ⟨h1, hall, T, hT, rfl⟩), fun hw => ?_⟩
      exact Or.inr ⟨Write_fresh _ _ hw, _, rfl⟩
  have hreturned : ∃ s1, (trimStep fl env (some lq) s).outcome = .returned s1 := by
    obtain ⟨s1, _, ho, _⟩ := hret
    exact ⟨s1, ho⟩
  obtain ⟨s1, ho⟩ := hreturned
  refine ⟨hret, fun v s2 h => ?_, fun h => ?_, fun h1 => ?_, by omega, ofInt_ne_zero _ hN,
    getEnvironmentVariables_nDays⟩
  · rw [ho] at h; cases h
  · rw [ho] at h; cases h
  · rw [(sortStrings_perm _).length_eq, keys_length]
    omega

set_option maxRecDepth 100000 in
theorem trimStep_no_fault_witness :
    (trimStep binary64 (testEnv 5) (some METADATA) World.init).outcome ≠ .unfinished ∧
      (testEnv 5).nDays ≠ 0 ∧ (F64.ofInt (testEnv 5).nDays).isZero = false :=
  ⟨(trimStep_no_fault binary64 (testEnv 5) METADATA testMetadata World.init (by decide) rfl
      (fun _ => by decide)).2.2.1,
    (trimStep_no_fault binary64 (testEnv 5) METADATA testMetadata World.init (by decide) rfl
      (fun _ => by decide)).2.2.2.2.1,
    (trimStep_no_fault binary64 (testEnv 5) METADATA testMetadata World.init (by decide) rfl
      (fun _ => by decide)).2.2.2.2.2.1⟩

end QuoteSvc
